import Mathlib

/-!
Shallow embedding of the core algorithmic modules of the repository
(`app/utils/array_operations.py`, `app/utils/palindrome_operations.py`,
`app/services/median_service.py`, `app/services/palindrome_service.py`)
together with proofs settling the specification claims.

Modelling conventions:
* Python numbers (ints and finite floats) are modelled as rationals `ℚ`.
* The IEEE special values `float('-inf')`, `float('inf')` and `float('nan')`
  that the median algorithm uses as partition sentinels are modelled by the
  extended type `ERat` below.
* A raw element of a Python input list (which may fail `isinstance` checks or
  be NaN) is modelled by `PyObj`.
* A Python function that may `raise` is modelled as returning `Except`.
-/

/-- Extended rationals: the value space of Python floats as used by
`find_median_sorted_arrays` (finite values plus the `float('-inf')` /
`float('inf')` sentinels; `nan` can only arise from `-inf + inf`). -/
inductive ERat where
  | negInf : ERat
  | fin : ℚ → ERat
  | posInf : ERat
  | nan : ERat
deriving DecidableEq, Repr

/-- Python `<=` on floats (False whenever a NaN is involved). -/
def ERat.ble : ERat → ERat → Bool
  | .nan, _ => false
  | _, .nan => false
  | .negInf, _ => true
  | _, .posInf => true
  | .posInf, _ => false
  | _, .negInf => false
  | .fin a, .fin b => a ≤ b

/-- Python `<` on floats (False whenever a NaN is involved). -/
def ERat.blt (a b : ERat) : Bool := a.ble b && !(b.ble a)

/-- Python `max(x, y)`: returns `y` exactly when `y > x`. -/
def ERat.pymax (a b : ERat) : ERat := if a.blt b then b else a

/-- Python `min(x, y)`: returns `y` exactly when `y < x`. -/
def ERat.pymin (a b : ERat) : ERat := if b.blt a then b else a

/-- Python `+` on floats (for non-NaN operands; `-inf + inf` is NaN). -/
def ERat.add : ERat → ERat → ERat
  | .nan, _ => .nan
  | _, .nan => .nan
  | .negInf, .posInf => .nan
  | .posInf, .negInf => .nan
  | .negInf, _ => .negInf
  | _, .negInf => .negInf
  | .posInf, _ => .posInf
  | _, .posInf => .posInf
  | .fin a, .fin b => .fin (a + b)

/-- Python `x / 2.0` on floats. -/
def ERat.half : ERat → ERat
  | .nan => .nan
  | .negInf => .negInf
  | .posInf => .posInf
  | .fin a => .fin (a / 2)

/-- A raw element of a Python input list for the median engine: a finite
number, the float NaN, or a non-numeric object. -/
inductive PyObj where
  | num : ℚ → PyObj
  | nan : PyObj
  | nonNum : PyObj
deriving DecidableEq, Repr

/-- The `isinstance(val, (int, float)) and val == val` test of
`_validate_array_contents` (NaN fails `val == val`). -/
def PyObj.isValidNum : PyObj → Bool
  | .num _ => true
  | .nan => false
  | .nonNum => false

/-- Python `<` between two list elements as used by `_validate_array_sorted`
(only ever reached on validated numeric, non-NaN elements). -/
def PyObj.pyLt : PyObj → PyObj → Bool
  | .num a, .num b => a < b
  | _, _ => false

/-- Extract the rational value of a validated element (the default `0` is
never used on lists that passed `_validate_array_contents`). -/
def PyObj.toRat : PyObj → ℚ
  | .num q => q
  | _ => 0

/-- The distinct `raise ArrayOperationError(...)` sites of
`array_operations.py`, abstracting the message text. -/
inductive ArrayError where
  | invalidValue : String → ℕ → ArrayError
  | notSorted : String → ℕ → ArrayError
  | bothEmpty : ArrayError
  | searchFailed : ArrayError
deriving DecidableEq, Repr

instance {ε α : Type} [DecidableEq ε] [DecidableEq α] :
    DecidableEq (Except ε α) := fun a b =>
  match a, b with
  | .ok x, .ok y => decidable_of_iff (x = y) (by simp)
  | .error x, .error y => decidable_of_iff (x = y) (by simp)
  | .ok _, .error _ => isFalse (by simp)
  | .error _, .ok _ => isFalse (by simp)

/-- Model of `_validate_array_contents`: index of the first invalid element, if any
(the Python loop raises at the first index failing the check). -/
def firstInvalidIdx (arr : List PyObj) : Option ℕ :=
  arr.findIdx? (fun v => !v.isValidNum)

/-- Model of `_validate_array_sorted`: the Python loop `for i in range(1, len(arr))`
raises at the first `i` with `arr[i] < arr[i-1]`. -/
def firstUnsortedIdx (arr : List PyObj) : Option ℕ :=
  (List.range' 1 (arr.length - 1)).find?
    (fun i => (arr.getD i .nonNum).pyLt (arr.getD (i - 1) .nonNum))

/-- Model of `_find_median_single_array` on a (validated) sorted array. -/
def findMedianSingle (arr : List ℚ) : ℚ :=
  let n := arr.length
  if n % 2 = 1 then arr.getD (n / 2) 0
  else (arr.getD (n / 2 - 1) 0 + arr.getD (n / 2) 0) / 2

/-- The merging loop of `merge_sorted_arrays` (after its input validation):
repeatedly take the smaller head, preferring `nums1` on ties, then append
the remainders.  (Written with nested `List.rec` so that the definition
reduces definitionally; the defining equations are proved by `rfl` below.) -/
def mergeCore : List ℚ → List ℚ → List ℚ :=
  @List.rec ℚ (fun _ => List ℚ → List ℚ) (fun ys => ys)
    (fun x xs ih ys =>
      @List.rec ℚ (fun _ => List ℚ) (x :: xs)
        (fun y ys2 ihy => if x ≤ y then x :: ih (y :: ys2) else y :: ihy) ys)

@[simp] theorem mergeCore_nil_left (ys : List ℚ) : mergeCore [] ys = ys := rfl

@[simp] theorem mergeCore_nil_right (x : ℚ) (xs : List ℚ) :
    mergeCore (x :: xs) [] = x :: xs := rfl

@[simp] theorem mergeCore_cons_cons (x y : ℚ) (xs ys : List ℚ) :
    mergeCore (x :: xs) (y :: ys) =
      if x ≤ y then x :: mergeCore xs (y :: ys) else y :: mergeCore (x :: xs) ys := rfl

/-- Model of `merge_sorted_arrays`: validation followed by the merging loop. -/
def merge_sorted_arrays (nums1 nums2 : List PyObj) :
    Except ArrayError (List PyObj) :=
  match firstInvalidIdx nums1 with
  | some i => .error (.invalidValue "nums1" i)
  | none =>
  match firstInvalidIdx nums2 with
  | some i => .error (.invalidValue "nums2" i)
  | none =>
  match firstUnsortedIdx nums1 with
  | some i => .error (.notSorted "nums1" i)
  | none =>
  match firstUnsortedIdx nums2 with
  | some i => .error (.notSorted "nums2" i)
  | none =>
    .ok ((mergeCore (nums1.map PyObj.toRat) (nums2.map PyObj.toRat)).map PyObj.num)

/-- The `while left <= right` binary partition search of
`find_median_sorted_arrays`, lines 80-111.  `a` is the shorter array
(`nums1` after the swap), `b` the longer.  The loop always terminates
because the integer interval `[left, right]` strictly shrinks, so it is
modelled with a fuel parameter: the caller passes fuel exceeding the
initial interval length, and exhausted fuel returns the same
`searchFailed` error as the exhausted-window exit of the Python loop.
For calls originating in `findMedianCore` all indices stay in bounds, so
the `getD` defaults are never used. -/
def medianLoop (a b : List ℚ) (m n total half : ℕ) :
    ℕ → ℤ → ℤ → Except ArrayError ERat
  | 0, _, _ => .error .searchFailed
  | fuel + 1, left, right =>
    if left ≤ right then
      let px : ℤ := (left + right) / 2
      let py : ℤ := (half : ℤ) - px
      let maxLeftX : ERat := if px = 0 then .negInf else .fin (a.getD (px - 1).toNat 0)
      let minRightX : ERat := if px = m then .posInf else .fin (a.getD px.toNat 0)
      let maxLeftY : ERat := if py = 0 then .negInf else .fin (b.getD (py - 1).toNat 0)
      let minRightY : ERat := if py = n then .posInf else .fin (b.getD py.toNat 0)
      if maxLeftX.ble minRightY && maxLeftY.ble minRightX then
        if total % 2 = 1 then .ok (maxLeftX.pymax maxLeftY)
        else .ok (((maxLeftX.pymax maxLeftY).add (minRightX.pymin minRightY)).half)
      else if minRightY.blt maxLeftX then
        medianLoop a b m n total half fuel left (px - 1)
      else
        medianLoop a b m n total half fuel (px + 1) right
    else .error .searchFailed

/-- Lines 70-114 of `find_median_sorted_arrays`: swap so that the first
array is the shorter one, then run the binary partition search. -/
def findMedianCore (nums1 nums2 : List ℚ) : Except ArrayError ERat :=
  let p := if nums1.length > nums2.length then (nums2, nums1) else (nums1, nums2)
  let a := p.1
  let b := p.2
  let m := a.length
  let n := b.length
  let total := m + n
  let half := (total + 1) / 2
  medianLoop a b m n total half (m + 2) 0 (m : ℤ)

/-- Model of `find_median_sorted_arrays`: eager validation (contents of `nums1`,
contents of `nums2`, sortedness of `nums1`, sortedness of `nums2`), the
empty-array edge cases, then the binary partition search. -/
def find_median_sorted_arrays (nums1 nums2 : List PyObj) :
    Except ArrayError ERat :=
  match firstInvalidIdx nums1 with
  | some i => .error (.invalidValue "nums1" i)
  | none =>
  match firstInvalidIdx nums2 with
  | some i => .error (.invalidValue "nums2" i)
  | none =>
  match firstUnsortedIdx nums1 with
  | some i => .error (.notSorted "nums1" i)
  | none =>
  match firstUnsortedIdx nums2 with
  | some i => .error (.notSorted "nums2" i)
  | none =>
    if nums1.length = 0 ∧ nums2.length = 0 then .error .bothEmpty
    else if nums1.length = 0 then
      .ok (.fin (findMedianSingle (nums2.map PyObj.toRat)))
    else if nums2.length = 0 then
      .ok (.fin (findMedianSingle (nums1.map PyObj.toRat)))
    else findMedianCore (nums1.map PyObj.toRat) (nums2.map PyObj.toRat)

/-- The reference median of the specification: fully merge the two arrays
and take the middle element (odd total length) or the average of the two
middle elements (even total length). -/
def refMedian (nums1 nums2 : List ℚ) : ℚ :=
  findMedianSingle (mergeCore nums1 nums2)

/-- Model of `is_palindrome` (`palindrome_operations.py` line 124): `s == s[::-1]`,
the reverse-and-compare test, on the character sequence of the string. -/
def is_palindrome (s : String) : Bool := s.data == s.data.reverse

/-- The `while left < right` two-pointer loop of `is_palindrome_optimized`.
The indices are integers because `right` starts at `len(s) - 1`, which is
`-1` for the empty string. -/
def palindromeLoop (cs : List Char) (left right : ℤ) : Bool :=
  if left < right then
    if cs.getD left.toNat ' ' ≠ cs.getD right.toNat ' ' then false
    else palindromeLoop cs (left + 1) (right - 1)
  else true
termination_by (right - left).toNat
decreasing_by simp_wf; omega

/-- Model of `is_palindrome_optimized` (`palindrome_operations.py` lines 127-148). -/
def is_palindrome_optimized (s : String) : Bool :=
  palindromeLoop s.data 0 (s.data.length - 1)

/-- Model of `find_palindrome_pairs` (`palindrome_operations.py` lines 20-69) on a
list of strings (for which `_validate_word_list` always passes): fewer than
2 words gives `[]`, otherwise the double loop over `i` (outer, ascending)
and `j` (inner, ascending) collects every `(i, j)` with `i != j` whose
concatenation is a palindrome. -/
def find_palindrome_pairs (words : List String) : List (ℕ × ℕ) :=
  if words.length < 2 then []
  else (List.range words.length).flatMap (fun i =>
    (List.range words.length).filterMap (fun j =>
      if i ≠ j ∧ is_palindrome (words.getD i "" ++ words.getD j "") then some (i, j)
      else none))

/-- The value `len(words[i] + words[j])` for a pair `(i, j)`. -/
def concatLen (words : List String) (p : ℕ × ℕ) : ℕ :=
  ((words.getD p.1 "") ++ (words.getD p.2 "")).length

/-- The `for i, j in pairs` loop of `find_longest_palindrome_pair`:
`best` is `longest_pair` and `maxLen` is `max_length`; an entry replaces
the best only when its concatenated length is strictly greater. -/
def longestLoop (words : List String) :
    List (ℕ × ℕ) → Option (ℕ × ℕ × ℕ) → ℕ → Option (ℕ × ℕ × ℕ)
  | [], best, _ => best
  | p :: rest, best, maxLen =>
    if maxLen < concatLen words p then
      longestLoop words rest (some (p.1, p.2, concatLen words p)) (concatLen words p)
    else longestLoop words rest best maxLen

/-- Model of `find_longest_palindrome_pair` (`palindrome_operations.py` lines 280-306). -/
def find_longest_palindrome_pair (words : List String) : Option (ℕ × ℕ × ℕ) :=
  let pairs := find_palindrome_pairs words
  if pairs.isEmpty then none
  else longestLoop words pairs none 0

/-- One entry of the `examples` list of `get_palindrome_statistics`. -/
structure PalindromeExample where
  indices : ℕ × ℕ
  words : String × String
  palindrome : String
deriving DecidableEq, Repr

/-- The dictionary returned by `get_palindrome_statistics`. -/
structure PalindromeStatistics where
  total_words : ℕ
  palindrome_pairs_count : ℕ
  unique_words_in_pairs : ℕ
  examples : List PalindromeExample
  has_palindromes : Bool
deriving DecidableEq, Repr

/-- Model of `get_palindrome_statistics` (`palindrome_operations.py` lines 247-277).
`len(set(...))` is modelled as the length of the deduplicated list. -/
def get_palindrome_statistics (words : List String) : PalindromeStatistics :=
  let pairs := find_palindrome_pairs words
  { total_words := words.length
    palindrome_pairs_count := pairs.length
    unique_words_in_pairs := (pairs.flatMap (fun p => [p.1, p.2])).dedup.length
    examples := (pairs.take 5).map (fun p =>
      { indices := (p.1, p.2)
        words := (words.getD p.1 "", words.getD p.2 "")
        palindrome := words.getD p.1 "" ++ words.getD p.2 "" })
    has_palindromes := decide (0 < pairs.length) }

/-- A raw element of a word list passed to the palindrome engine: a string
or a non-string object (which `_validate_word_list` rejects). -/
inductive PyStr where
  | str : String → PyStr
  | nonStr : PyStr
deriving DecidableEq, Repr

/-- The `raise PalindromeOperationError` site of `_validate_word_list`,
abstracting the message text. -/
inductive PalindromeError where
  | notAString : ℕ → PalindromeError
deriving DecidableEq, Repr

/-- Model of `_validate_word_list`: it raises at the first non-string index. -/
def firstNonStrIdx (ws : List PyStr) : Option ℕ :=
  ws.findIdx? (fun w => match w with | .str _ => false | .nonStr => true)

/-- Extract the string of a validated element (default never used on lists
that passed `_validate_word_list`). -/
def PyStr.toStr : PyStr → String
  | .str s => s
  | .nonStr => ""

/-- Model of `find_palindrome_pairs` including its input validation, as called by
the service layer. -/
def find_palindrome_pairs_checked (ws : List PyStr) :
    Except PalindromeError (List (ℕ × ℕ)) :=
  match firstNonStrIdx ws with
  | some i => .error (.notAString i)
  | none => .ok (find_palindrome_pairs (ws.map PyStr.toStr))

/-- The mutable counters of `MedianCalculationService`. -/
structure MedianServiceState where
  call_count : ℕ
  total_execution_time : ℚ
deriving DecidableEq, Repr

/-- Model of `MedianCalculationService.__init__`. -/
def medianServiceInit : MedianServiceState := ⟨0, 0⟩

/-- Model of `MedianCalculationService.calculate_median`: `dt` is the externally
measured wall-clock duration (milliseconds).  On success the counters are
updated and the median returned; an `ArrayOperationError` propagates with
the counters unchanged (the increment lines are skipped by the raise). -/
def calculateMedian (st : MedianServiceState) (nums1 nums2 : List PyObj)
    (dt : ℚ) : Except ArrayError ERat × MedianServiceState :=
  match find_median_sorted_arrays nums1 nums2 with
  | .ok med => (.ok med, ⟨st.call_count + 1, st.total_execution_time + dt⟩)
  | .error e => (.error e, st)

/-- Model of `MedianCalculationService.get_statistics().total_calls` (the other
fields of the dictionary are rounded floating-point times and a constant
status string). -/
def medianTotalCalls (st : MedianServiceState) : ℕ := st.call_count

/-- Model of `MedianCalculationService.reset_statistics`. -/
def medianResetStatistics (_st : MedianServiceState) : MedianServiceState := ⟨0, 0⟩

/-- The mutable counters of `PalindromeCalculationService`. -/
structure PalindromeServiceState where
  call_count : ℕ
  total_execution_time : ℚ
  pairs_found_total : ℕ
  words_processed_total : ℕ
deriving DecidableEq, Repr

/-- Model of `PalindromeCalculationService.__init__`. -/
def palindromeServiceInit : PalindromeServiceState := ⟨0, 0, 0, 0⟩

/-- Model of `PalindromeCalculationService.find_palindrome_pairs`: on success all
four counters are updated; a `PalindromeOperationError` propagates with
the counters unchanged. -/
def servicePalindromePairs (st : PalindromeServiceState) (ws : List PyStr)
    (dt : ℚ) : Except PalindromeError (List (ℕ × ℕ)) × PalindromeServiceState :=
  match find_palindrome_pairs_checked ws with
  | .ok pairs =>
    (.ok pairs,
      ⟨st.call_count + 1, st.total_execution_time + dt,
        st.pairs_found_total + pairs.length,
        st.words_processed_total + ws.length⟩)
  | .error e => (.error e, st)

/-- Model of `PalindromeCalculationService.get_statistics().total_calls`. -/
def palindromeTotalCalls (st : PalindromeServiceState) : ℕ := st.call_count

/-- Model of `PalindromeCalculationService.reset_statistics`. -/
def palindromeResetStatistics (_st : PalindromeServiceState) :
    PalindromeServiceState := ⟨0, 0, 0, 0⟩

/-- One interaction with the median service: a tracked `calculate_median`
call (with its wall-clock duration) or a `reset_statistics` call. -/
inductive MedianOp where
  | call : List PyObj → List PyObj → ℚ → MedianOp
  | reset : MedianOp

def MedianOp.isReset : MedianOp → Bool
  | .reset => true
  | _ => false

/-- Whether an operation is an engine call that completes successfully. -/
def MedianOp.succeeds : MedianOp → Bool
  | .call a b _ => (find_median_sorted_arrays a b).isOk
  | .reset => false

def medianStep (st : MedianServiceState) : MedianOp → MedianServiceState
  | .call a b dt => (calculateMedian st a b dt).2
  | .reset => medianResetStatistics st

/-- The state of the median service after a sequence of interactions,
starting from construction. -/
def medianRun (ops : List MedianOp) : MedianServiceState :=
  ops.foldl medianStep medianServiceInit

/-- One interaction with the palindrome service: a tracked
`find_palindrome_pairs` call or a `reset_statistics` call. -/
inductive PalindromeOp where
  | call : List PyStr → ℚ → PalindromeOp
  | reset : PalindromeOp

def PalindromeOp.isReset : PalindromeOp → Bool
  | .reset => true
  | _ => false

def PalindromeOp.succeeds : PalindromeOp → Bool
  | .call ws _ => (find_palindrome_pairs_checked ws).isOk
  | .reset => false

def palindromeStep (st : PalindromeServiceState) :
    PalindromeOp → PalindromeServiceState
  | .call ws dt => (servicePalindromePairs st ws dt).2
  | .reset => palindromeResetStatistics st

/-- The state of the palindrome service after a sequence of interactions,
starting from construction. -/
def palindromeRun (ops : List PalindromeOp) : PalindromeServiceState :=
  ops.foldl palindromeStep palindromeServiceInit

/-- The operations performed since the most recent reset (all of them if
no reset occurred). -/
def afterLastReset {α : Type} (isReset : α → Bool) (ops : List α) : List α :=
  (ops.reverse.takeWhile (fun op => !(isReset op))).reverse

example : find_median_sorted_arrays [.num 1, .num 3] [.num 2] = .ok (.fin 2) := by decide
example : find_median_sorted_arrays [] [.num 1] = .ok (.fin 1) := by decide
example : find_median_sorted_arrays [] [] = .error .bothEmpty := by decide
example : find_median_sorted_arrays [.nan] [] = .error (.invalidValue "nums1" 0) := by decide
example : find_median_sorted_arrays [.num 3, .num 1] [] = .error (.notSorted "nums1" 1) := by decide
example : refMedian [1, 3] [2] = 2 := by decide

/-! ## Palindrome pair enumeration (C2) -/

theorem mem_find_palindrome_pairs (words : List String) (i j : ℕ) :
    (i, j) ∈ find_palindrome_pairs words ↔
      i ≠ j ∧ i < words.length ∧ j < words.length ∧
        is_palindrome (words.getD i "" ++ words.getD j "") = true := by
  unfold find_palindrome_pairs
  by_cases h : words.length < 2
  · simp only [if_pos h, List.not_mem_nil, false_iff]
    rintro ⟨hij, hi, hj, -⟩
    omega
  · simp only [if_neg h, List.mem_flatMap, List.mem_filterMap, List.mem_range]
    constructor
    · rintro ⟨a, ha, b, hb, hab⟩
      rw [Option.ite_none_right_eq_some, Option.some.injEq, Prod.mk.injEq] at hab
      obtain ⟨⟨hne, hpal⟩, hai, hbj⟩ := hab
      subst hai; subst hbj
      exact ⟨hne, ha, hb, hpal⟩
    · rintro ⟨hne, hi, hj, hpal⟩
      refine ⟨i, hi, j, hj, ?_⟩
      rw [Option.ite_none_right_eq_some]
      exact ⟨⟨hne, hpal⟩, rfl⟩

/-- C2: `find_palindrome_pairs words` contains `(i, j)` exactly when
`i ≠ j`, both indices are in range, and `words[i] + words[j]` is a
palindrome; and the result is listed in the discovery order of the double
loop (outer index ascending, inner index ascending within each outer
index), which in particular rules out duplicates. -/
theorem claim_C2 (words : List String) :
    (∀ i j : ℕ, (i, j) ∈ find_palindrome_pairs words ↔
        i ≠ j ∧ i < words.length ∧ j < words.length ∧
          is_palindrome (words.getD i "" ++ words.getD j "") = true) ∧
    (find_palindrome_pairs words).Pairwise
      (fun p q => p.1 < q.1 ∨ (p.1 = q.1 ∧ p.2 < q.2)) := by
  refine ⟨fun i j => mem_find_palindrome_pairs words i j, ?_⟩
  unfold find_palindrome_pairs
  by_cases h : words.length < 2
  · simp [h]
  · simp only [if_neg h]
    rw [List.pairwise_flatMap]
    constructor
    · intro a _
      rw [List.pairwise_filterMap]
      refine (List.pairwise_lt_range _).imp ?_
      intro x y hxy p hp q hq
      rw [Option.mem_def, Option.ite_none_right_eq_some, Option.some.injEq] at hp hq
      obtain ⟨-, rfl⟩ := hp
      obtain ⟨-, rfl⟩ := hq
      exact Or.inr ⟨rfl, hxy⟩
    · refine (List.pairwise_lt_range _).imp ?_
      intro x y hxy p hp q hq
      rw [List.mem_filterMap] at hp hq
      obtain ⟨bx, -, hp⟩ := hp
      rw [Option.ite_none_right_eq_some, Option.some.injEq] at hp
      obtain ⟨-, rfl⟩ := hp
      obtain ⟨bq, -, hq⟩ := hq
      rw [Option.ite_none_right_eq_some, Option.some.injEq] at hq
      obtain ⟨-, rfl⟩ := hq
      exact Or.inl hxy

/-! ## Longest palindrome pair (C3, C10) -/

theorem longestLoop_eq_best (words : List String) :
    ∀ (l : List (ℕ × ℕ)) (best : Option (ℕ × ℕ × ℕ)) (m : ℕ),
      (∀ p ∈ l, concatLen words p ≤ m) → longestLoop words l best m = best := by
  intro l
  induction l with
  | nil => intro best m _; rfl
  | cons p rest ih =>
    intro best m h
    have hp : ¬ m < concatLen words p := by
      have := h p (by simp); omega
    simp only [longestLoop, if_neg hp]
    exact ih best m (fun q hq => h q (by simp [hq]))

theorem longestLoop_some_ne_none (words : List String) :
    ∀ (l : List (ℕ × ℕ)) (x : ℕ × ℕ × ℕ) (m : ℕ),
      longestLoop words l (some x) m ≠ none := by
  intro l
  induction l with
  | nil => intro x m; simp [longestLoop]
  | cons p rest ih =>
    intro x m
    simp only [longestLoop]
    split
    · exact ih _ _
    · exact ih _ _

theorem longestLoop_none_iff (words : List String) :
    ∀ (l : List (ℕ × ℕ)) (m : ℕ),
      (longestLoop words l none m = none ↔ ∀ p ∈ l, concatLen words p ≤ m) := by
  intro l
  induction l with
  | nil => intro m; simp [longestLoop]
  | cons p rest ih =>
    intro m
    simp only [longestLoop]
    by_cases hp : m < concatLen words p
    · rw [if_pos hp]
      constructor
      · intro h
        exact absurd h (longestLoop_some_ne_none words rest _ _)
      · intro h
        exfalso
        have := h p (by simp)
        omega
    · rw [if_neg hp, ih m]
      constructor
      · intro h q hq
        rcases List.mem_cons.mp hq with rfl | hq2
        · omega
        · exact h q hq2
      · intro h q hq
        exact h q (List.mem_cons_of_mem _ hq)

theorem longestLoop_some_char (words : List String) :
    ∀ (l : List (ℕ × ℕ)) (best : Option (ℕ × ℕ × ℕ)) (m i j L : ℕ),
      longestLoop words l best m = some (i, j, L) →
      (best = some (i, j, L) ∧ ∀ p ∈ l, concatLen words p ≤ m) ∨
      (∃ pre post, l = pre ++ (i, j) :: post ∧ concatLen words (i, j) = L ∧
        m < L ∧ (∀ p ∈ pre, concatLen words p < L) ∧
        (∀ p ∈ post, concatLen words p ≤ L)) := by
  intro l
  induction l with
  | nil =>
    intro best m i j L h
    simp only [longestLoop] at h
    exact Or.inl ⟨h, by simp⟩
  | cons p rest ih =>
    obtain ⟨p1, p2⟩ := p
    intro best m i j L h
    simp only [longestLoop] at h
    by_cases hp : m < concatLen words (p1, p2)
    · rw [if_pos hp] at h
      rcases ih _ _ i j L h with ⟨hbest, hall⟩ | ⟨pre, post, h1, h2, h3, h4, h5⟩
      · obtain ⟨rfl, rfl, rfl⟩ : p1 = i ∧ p2 = j ∧ concatLen words (p1, p2) = L := by
          simpa using hbest
        refine Or.inr ⟨[], rest, by simp, rfl, hp, by simp, ?_⟩
        intro q hq
        exact hall q hq
      · refine Or.inr ⟨(p1, p2) :: pre, post, by simp [h1], h2, by omega, ?_, h5⟩
        intro q hq
        rcases List.mem_cons.mp hq with rfl | hq2
        · omega
        · exact h4 q hq2
    · rw [if_neg hp] at h
      rcases ih _ _ i j L h with ⟨hbest, hall⟩ | ⟨pre, post, h1, h2, h3, h4, h5⟩
      · refine Or.inl ⟨hbest, ?_⟩
        intro q hq
        rcases List.mem_cons.mp hq with rfl | hq2
        · omega
        · exact hall q hq2
      · refine Or.inr ⟨(p1, p2) :: pre, post, by simp [h1], h2, h3, ?_, h5⟩
        intro q hq
        rcases List.mem_cons.mp hq with rfl | hq2
        · omega
        · exact h4 q hq2

/-- C3 counterexample: for `["", ""]` the pair list is non-empty (both
concatenations are empty palindromes) yet `find_longest_palindrome_pair`
returns `none`, so "returns None if and only if the pair list is empty"
fails. -/
theorem claim_C3_counterexample :
    find_longest_palindrome_pair ["", ""] = none ∧
      find_palindrome_pairs ["", ""] ≠ [] := by decide

/-- C3 (amended): `find_longest_palindrome_pair` returns `none` iff every
discovered pair has concatenated length 0 (in particular when no pairs
exist); otherwise it returns the first pair in discovery order whose
concatenated length is maximal (ties keep the earliest), together with
that length. -/
theorem claim_C3 (words : List String) :
    (find_longest_palindrome_pair words = none ↔
      ∀ p ∈ find_palindrome_pairs words, concatLen words p = 0) ∧
    (∀ i j L, find_longest_palindrome_pair words = some (i, j, L) →
      ∃ pre post, find_palindrome_pairs words = pre ++ (i, j) :: post ∧
        concatLen words (i, j) = L ∧ 0 < L ∧
        (∀ p ∈ pre, concatLen words p < L) ∧
        (∀ p ∈ post, concatLen words p ≤ L)) := by
  constructor
  · simp only [find_longest_palindrome_pair]
    by_cases h : (find_palindrome_pairs words).isEmpty
    · rw [if_pos h]
      rw [List.isEmpty_iff] at h
      simp [h]
    · rw [if_neg h, longestLoop_none_iff]
      constructor <;> intro h2 p hp <;> have := h2 p hp <;> omega
  · intro i j L h
    simp only [find_longest_palindrome_pair] at h
    by_cases hemp : (find_palindrome_pairs words).isEmpty
    · rw [if_pos hemp] at h
      exact absurd h (by simp)
    · rw [if_neg hemp] at h
      rcases longestLoop_some_char words _ _ _ i j L h with ⟨hbest, -⟩ | hchar
      · exact absurd hbest (by simp)
      · exact hchar

/-- C3 witness: on `["race", "car", "da", "d"]` the amended theorem yields
the characterization of the returned longest pair `(0, 1, 7)`. -/
theorem claim_C3_witness :
    ∃ pre post, find_palindrome_pairs ["race", "car", "da", "d"] =
        pre ++ (0, 1) :: post ∧
      concatLen ["race", "car", "da", "d"] (0, 1) = 7 ∧ 0 < 7 ∧
      (∀ p ∈ pre, concatLen ["race", "car", "da", "d"] p < 7) ∧
      (∀ p ∈ post, concatLen ["race", "car", "da", "d"] p ≤ 7) :=
  (claim_C3 ["race", "car", "da", "d"]).2 0 1 7 (by decide)

/-- C10: when pairs exist but every pair concatenates to the empty string,
`find_longest_palindrome_pair` returns `none`, because a candidate is only
recorded when its length strictly exceeds the initial maximum 0. -/
theorem claim_C10 (words : List String)
    (hne : find_palindrome_pairs words ≠ [])
    (hz : ∀ p ∈ find_palindrome_pairs words, concatLen words p = 0) :
    find_longest_palindrome_pair words = none := by
  simp only [find_longest_palindrome_pair]
  rw [if_neg (by simpa using hne), longestLoop_none_iff]
  intro p hp
  have := hz p hp
  omega

/-- C10 witness at the concrete input `["", ""]`. -/
theorem claim_C10_witness :
    find_palindrome_pairs ["", ""] ≠ [] ∧
      (∀ p ∈ find_palindrome_pairs ["", ""], concatLen ["", ""] p = 0) ∧
      find_longest_palindrome_pair ["", ""] = none :=
  ⟨by decide, by decide, claim_C10 ["", ""] (by decide) (by decide)⟩

/-! ## Palindrome statistics (C8) -/

/-- C8: `get_palindrome_statistics` reports the word count, the pair
count, the number of distinct indices appearing in any pair, at most the
first 5 pairs as examples (with index pair, source words and concatenated
palindrome), and a flag that is true exactly when pairs exist. -/
theorem claim_C8 (words : List String) :
    (get_palindrome_statistics words).total_words = words.length ∧
    (get_palindrome_statistics words).palindrome_pairs_count =
      (find_palindrome_pairs words).length ∧
    (get_palindrome_statistics words).unique_words_in_pairs =
      (((find_palindrome_pairs words).map Prod.fst) ++
        ((find_palindrome_pairs words).map Prod.snd)).toFinset.card ∧
    (get_palindrome_statistics words).examples.length ≤ 5 ∧
    (get_palindrome_statistics words).examples =
      ((find_palindrome_pairs words).take 5).map (fun p =>
        ⟨(p.1, p.2), (words.getD p.1 "", words.getD p.2 ""),
          words.getD p.1 "" ++ words.getD p.2 ""⟩) ∧
    ((get_palindrome_statistics words).has_palindromes = true ↔
      find_palindrome_pairs words ≠ []) := by
  refine ⟨rfl, rfl, ?_, ?_, rfl, ?_⟩
  · show ((find_palindrome_pairs words).flatMap fun p => [p.1, p.2]).dedup.length = _
    rw [← List.card_toFinset]
    congr 1
    ext x
    simp only [List.mem_toFinset, List.mem_flatMap, List.mem_append, List.mem_map,
      List.mem_cons, List.not_mem_nil, or_false]
    constructor
    · rintro ⟨p, hp, rfl | rfl⟩
      · exact Or.inl ⟨p, hp, rfl⟩
      · exact Or.inr ⟨p, hp, rfl⟩
    · rintro (⟨p, hp, rfl⟩ | ⟨p, hp, rfl⟩)
      · exact ⟨p, hp, Or.inl rfl⟩
      · exact ⟨p, hp, Or.inr rfl⟩
  · show (((find_palindrome_pairs words).take 5).map _).length ≤ 5
    rw [List.length_map, List.length_take]
    omega
  · show decide (0 < (find_palindrome_pairs words).length) = true ↔ _
    rw [decide_eq_true_iff]
    exact List.length_pos

/-! ## Two palindrome tests agree (C9) -/

theorem palindromeLoop_iff (cs : List Char) (l r : ℤ) (hl : 0 ≤ l)
    (hr : r < (cs.length : ℤ)) :
    palindromeLoop cs l r = true ↔
      ∀ i : ℕ, l ≤ (i : ℤ) → (i : ℤ) < l + r - i →
        cs.getD i ' ' = cs.getD (l + r - i).toNat ' ' := by
  rw [palindromeLoop]
  by_cases hlr : l < r
  · rw [if_pos hlr]
    by_cases hc : cs.getD l.toNat ' ' ≠ cs.getD r.toNat ' '
    · rw [if_pos hc]
      simp only [Bool.false_eq_true, false_iff]
      intro hall
      apply hc
      have h1 := hall l.toNat (by omega) (by omega)
      have h2 : (l + r - (l.toNat : ℤ)).toNat = r.toNat := by omega
      rw [h2] at h1
      exact h1
    · rw [if_neg hc]
      push_neg at hc
      rw [palindromeLoop_iff cs (l + 1) (r - 1) (by omega) (by omega)]
      constructor
      · intro h i hi1 hi2
        by_cases hil : (i : ℤ) = l
        · have hi : i = l.toNat := by omega
          subst hi
          have h2 : (l + r - (l.toNat : ℤ)).toNat = r.toNat := by omega
          rw [h2]
          exact hc
        · have h3 : l + 1 + (r - 1) - (i : ℤ) = l + r - i := by ring
          have h4 := h i (by omega) (by omega)
          rw [h3] at h4
          exact h4
      · intro h i hi1 hi2
        have h3 : l + 1 + (r - 1) - (i : ℤ) = l + r - i := by ring
        rw [h3]
        exact h i (by omega) (by omega)
  · rw [if_neg hlr]
    simp only [true_iff]
    intro i hi1 hi2
    omega
termination_by (r - l).toNat
decreasing_by omega

/-- C9: the reverse-and-compare test `is_palindrome` and the two-pointer
test `is_palindrome_optimized` return the same boolean on every string. -/
theorem claim_C9 (s : String) : is_palindrome s = is_palindrome_optimized s := by
  unfold is_palindrome is_palindrome_optimized
  by_cases h0 : s.data.length = 0
  · have hnil : s.data = [] := List.eq_nil_of_length_eq_zero h0
    rw [hnil, palindromeLoop]
    norm_num
  · rw [Bool.eq_iff_iff, beq_iff_eq,
      palindromeLoop_iff s.data 0 ((s.data.length : ℤ) - 1) (by omega) (by omega)]
    constructor
    · intro heq i hi1 hi2
      have hi : i < s.data.length := by omega
      have hj : ((0 : ℤ) + ((s.data.length : ℤ) - 1) - i).toNat < s.data.length := by
        omega
      rw [List.getD_eq_getElem _ _ hi, List.getD_eq_getElem _ _ hj]
      rw [List.getElem_of_eq heq hi, List.getElem_reverse]
      congr 1
      omega
    · intro h
      apply List.ext_getElem (by simp)
      intro k h1 h2
      rw [List.getElem_reverse]
      rcases lt_trichotomy (k : ℤ) ((0 : ℤ) + ((s.data.length : ℤ) - 1) - k)
        with hlt | heq2 | hgt
      · have h4 := h k (by omega) (by omega)
        have h5 : ((0 : ℤ) + ((s.data.length : ℤ) - 1) - k).toNat =
            s.data.length - 1 - k := by omega
        rw [h5] at h4
        rw [List.getD_eq_getElem _ _ h1, List.getD_eq_getElem _ _ (by omega)] at h4
        exact h4
      · have h5 : s.data.length - 1 - k = k := by omega
        simp only [h5]
      · have hj2 : s.data.length - 1 - k < s.data.length := by omega
        have h4 := h (s.data.length - 1 - k) (by omega) (by omega)
        have h5 : ((0 : ℤ) + ((s.data.length : ℤ) - 1) - (s.data.length - 1 - k : ℕ)).toNat
            = k := by omega
        rw [h5] at h4
        rw [List.getD_eq_getElem _ _ hj2, List.getD_eq_getElem _ _ h1] at h4
        exact h4.symm

/-! ## Service statistics tracking (C6) -/

theorem afterLastReset_append {α : Type} (isReset : α → Bool) (l : List α) (a : α) :
    afterLastReset isReset (l ++ [a]) =
      if isReset a then [] else afterLastReset isReset l ++ [a] := by
  unfold afterLastReset
  rw [List.reverse_append]
  simp only [List.reverse_cons, List.reverse_nil, List.nil_append, List.singleton_append,
    List.takeWhile_cons]
  by_cases h : isReset a
  · simp [h]
  · simp [h]

theorem medianRun_total_calls (ops : List MedianOp) :
    (medianRun ops).call_count =
      (afterLastReset MedianOp.isReset ops).countP MedianOp.succeeds := by
  induction ops using List.reverseRecOn with
  | nil => rfl
  | append_singleton l a ih =>
    rw [medianRun, List.foldl_append, afterLastReset_append]
    cases a with
    | reset => simp [medianStep, medianResetStatistics, MedianOp.isReset]
    | call x y dt =>
      simp only [MedianOp.isReset, Bool.false_eq_true, if_false, List.countP_append,
        List.countP_cons, List.countP_nil]
      rw [show (List.foldl medianStep medianServiceInit l) = medianRun l from rfl]
      cases h : find_median_sorted_arrays x y with
      | ok v =>
        simp [medianStep, calculateMedian, h, MedianOp.succeeds, ih, Except.isOk,
          Except.toBool]
      | error e =>
        simp [medianStep, calculateMedian, h, MedianOp.succeeds, ih, Except.isOk,
          Except.toBool]

theorem palindromeRun_total_calls (ops : List PalindromeOp) :
    (palindromeRun ops).call_count =
      (afterLastReset PalindromeOp.isReset ops).countP PalindromeOp.succeeds := by
  induction ops using List.reverseRecOn with
  | nil => rfl
  | append_singleton l a ih =>
    rw [palindromeRun, List.foldl_append, afterLastReset_append]
    cases a with
    | reset => simp [palindromeStep, palindromeResetStatistics, PalindromeOp.isReset]
    | call ws dt =>
      simp only [PalindromeOp.isReset, Bool.false_eq_true, if_false, List.countP_append,
        List.countP_cons, List.countP_nil]
      rw [show (List.foldl palindromeStep palindromeServiceInit l) = palindromeRun l
        from rfl]
      cases h : find_palindrome_pairs_checked ws with
      | ok v =>
        simp [palindromeStep, servicePalindromePairs, h, PalindromeOp.succeeds, ih,
          Except.isOk, Except.toBool]
      | error e =>
        simp [palindromeStep, servicePalindromePairs, h, PalindromeOp.succeeds, ih,
          Except.isOk, Except.toBool]

/-- C6: in every reachable state of either service, `total_calls` equals
the number of tracked engine calls that completed successfully since
construction or the most recent reset; a successful call updates the
counters exactly once, a failing call propagates the error with every
counter unchanged, and a reset returns the counters to zero. -/
theorem claim_C6 :
    (∀ ops : List MedianOp, medianTotalCalls (medianRun ops) =
        (afterLastReset MedianOp.isReset ops).countP MedianOp.succeeds) ∧
    (∀ ops : List PalindromeOp, palindromeTotalCalls (palindromeRun ops) =
        (afterLastReset PalindromeOp.isReset ops).countP PalindromeOp.succeeds) ∧
    (∀ (st : MedianServiceState) (a b : List PyObj) (dt : ℚ) (e : ArrayError),
        (calculateMedian st a b dt).1 = .error e →
        (calculateMedian st a b dt).2 = st) ∧
    (∀ (st : MedianServiceState) (a b : List PyObj) (dt : ℚ) (v : ERat),
        (calculateMedian st a b dt).1 = .ok v →
        (calculateMedian st a b dt).2 =
          ⟨st.call_count + 1, st.total_execution_time + dt⟩) ∧
    (∀ (st : PalindromeServiceState) (ws : List PyStr) (dt : ℚ) (e : PalindromeError),
        (servicePalindromePairs st ws dt).1 = .error e →
        (servicePalindromePairs st ws dt).2 = st) ∧
    (∀ (st : PalindromeServiceState) (ws : List PyStr) (dt : ℚ) (v : List (ℕ × ℕ)),
        (servicePalindromePairs st ws dt).1 = .ok v →
        (servicePalindromePairs st ws dt).2 =
          ⟨st.call_count + 1, st.total_execution_time + dt,
            st.pairs_found_total + v.length, st.words_processed_total + ws.length⟩) ∧
    (∀ st : MedianServiceState, medianTotalCalls (medianResetStatistics st) = 0) ∧
    (∀ st : PalindromeServiceState,
        palindromeTotalCalls (palindromeResetStatistics st) = 0) := by
  refine ⟨medianRun_total_calls, palindromeRun_total_calls, ?_, ?_, ?_, ?_,
    fun _ => rfl, fun _ => rfl⟩
  · intro st a b dt e h
    unfold calculateMedian at h ⊢
    cases hf : find_median_sorted_arrays a b <;> simp [hf] at h ⊢
  · intro st a b dt v h
    unfold calculateMedian at h ⊢
    cases hf : find_median_sorted_arrays a b <;> simp [hf] at h ⊢
  · intro st ws dt e h
    unfold servicePalindromePairs at h ⊢
    cases hf : find_palindrome_pairs_checked ws <;> simp [hf] at h ⊢
  · intro st ws dt v h
    unfold servicePalindromePairs at h ⊢
    cases hf : find_palindrome_pairs_checked ws <;> simp [hf] at h ⊢
    subst h
    rfl

/-- C6 witness: a concrete trace with a successful call, a reset, another
successful call and a failing call leaves `total_calls = 1`. -/
theorem claim_C6_witness :
    medianTotalCalls (medianRun
      [MedianOp.call [] [PyObj.num 1] 1, MedianOp.reset,
        MedianOp.call [] [PyObj.num 2] 1, MedianOp.call [PyObj.nan] [] 1]) = 1 := by
  rw [claim_C6.1 [MedianOp.call [] [PyObj.num 1] 1, MedianOp.reset,
    MedianOp.call [] [PyObj.num 2] 1, MedianOp.call [PyObj.nan] [] 1]]
  decide

/-! ## Merging and sorted-list lemmas -/

theorem mergeCore_perm (xs : List ℚ) : ∀ ys, (mergeCore xs ys).Perm (xs ++ ys) := by
  induction xs with
  | nil => intro ys; simp
  | cons x xs ihx =>
    intro ys
    induction ys with
    | nil => simp
    | cons y ys ihy =>
      rw [mergeCore_cons_cons]
      by_cases h : x ≤ y
      · rw [if_pos h]
        exact (ihx (y :: ys)).cons x
      · rw [if_neg h]
        exact (ihy.cons y).trans List.perm_middle.symm

theorem sorted_append_iff (l₁ l₂ : List ℚ) :
    (l₁ ++ l₂).Sorted (· ≤ ·) ↔
      l₁.Sorted (· ≤ ·) ∧ l₂.Sorted (· ≤ ·) ∧ ∀ x ∈ l₁, ∀ y ∈ l₂, x ≤ y :=
  List.pairwise_append

theorem mergeCore_sorted (xs : List ℚ) : ∀ ys, xs.Sorted (· ≤ ·) →
    ys.Sorted (· ≤ ·) → (mergeCore xs ys).Sorted (· ≤ ·) := by
  induction xs with
  | nil => intro ys _ hys; simpa using hys
  | cons x xs ihx =>
    intro ys hxs
    induction ys with
    | nil => intro _; simpa using hxs
    | cons y ys ihy =>
      intro hys
      rw [mergeCore_cons_cons]
      by_cases h : x ≤ y
      · rw [if_pos h, List.sorted_cons]
        refine ⟨?_, ihx (y :: ys) (List.sorted_cons.mp hxs).2 hys⟩
        intro z hz
        have hz2 : z ∈ xs ++ y :: ys := (mergeCore_perm xs (y :: ys)).mem_iff.mp hz
        rcases List.mem_append.mp hz2 with hza | hzb
        · exact (List.sorted_cons.mp hxs).1 z hza
        · rcases List.mem_cons.mp hzb with rfl | hzy
          · exact h
          · exact le_trans h ((List.sorted_cons.mp hys).1 z hzy)
      · rw [if_neg h, List.sorted_cons]
        refine ⟨?_, ihy (List.sorted_cons.mp hys).2⟩
        intro z hz
        have hy2 : y ≤ x := le_of_lt (lt_of_not_le h)
        have hz2 : z ∈ (x :: xs) ++ ys := (mergeCore_perm (x :: xs) ys).mem_iff.mp hz
        rcases List.mem_append.mp hz2 with hza | hzb
        · rcases List.mem_cons.mp hza with rfl | hzx
          · exact hy2
          · exact le_trans hy2 ((List.sorted_cons.mp hxs).1 z hzx)
        · exact (List.sorted_cons.mp hys).1 z hzb

theorem sorted_getD_mono (l : List ℚ) (hl : l.Sorted (· ≤ ·)) {i j : ℕ}
    (hij : i ≤ j) (hj : j < l.length) : l.getD i 0 ≤ l.getD j 0 := by
  rw [List.getD_eq_getElem _ _ (lt_of_le_of_lt hij hj), List.getD_eq_getElem _ _ hj]
  rcases eq_or_lt_of_le hij with rfl | hlt
  · exact le_refl _
  · have := List.pairwise_iff_get.mp hl ⟨i, lt_of_le_of_lt hij hj⟩ ⟨j, hj⟩ hlt
    simpa using this

theorem sorted_le_last (l : List ℚ) (hl : l.Sorted (· ≤ ·)) {x : ℚ} (hx : x ∈ l) :
    x ≤ l.getD (l.length - 1) 0 := by
  obtain ⟨i, hi, rfl⟩ := List.mem_iff_getElem.mp hx
  rw [← List.getD_eq_getElem l 0 hi]
  exact sorted_getD_mono l hl (by omega) (by omega)

theorem sorted_head_le (l : List ℚ) (hl : l.Sorted (· ≤ ·)) {x : ℚ} (hx : x ∈ l) :
    l.getD 0 0 ≤ x := by
  obtain ⟨i, hi, rfl⟩ := List.mem_iff_getElem.mp hx
  rw [← List.getD_eq_getElem l 0 hi]
  exact sorted_getD_mono l hl (by omega) hi

theorem sorted_last_eq_of_ub (l : List ℚ) (hl : l.Sorted (· ≤ ·)) {q : ℚ}
    (hq : q ∈ l) (hub : ∀ x ∈ l, x ≤ q) : l.getD (l.length - 1) 0 = q := by
  have hne : l ≠ [] := by rintro rfl; exact absurd hq (List.not_mem_nil q)
  have hlen : l.length - 1 < l.length := by
    have : 0 < l.length := List.length_pos.mpr hne
    omega
  refine le_antisymm ?_ (sorted_le_last l hl hq)
  apply hub
  rw [List.getD_eq_getElem _ _ hlen]
  exact List.getElem_mem hlen

theorem sorted_head_eq_of_lb (l : List ℚ) (hl : l.Sorted (· ≤ ·)) {q : ℚ}
    (hq : q ∈ l) (hlb : ∀ x ∈ l, q ≤ x) : l.getD 0 0 = q := by
  have hne : l ≠ [] := by rintro rfl; exact absurd hq (List.not_mem_nil q)
  have hlen : 0 < l.length := List.length_pos.mpr hne
  refine le_antisymm (sorted_head_le l hl hq) ?_
  apply hlb
  rw [List.getD_eq_getElem _ _ hlen]
  exact List.getElem_mem hlen

/-! ## Partition decomposition of the merged list -/

theorem merged_split (a b : List ℚ) (ha : a.Sorted (· ≤ ·)) (hb : b.Sorted (· ≤ ·))
    (px py : ℕ)
    (h1 : ∀ x ∈ a.take px, ∀ y ∈ b.drop py, x ≤ y)
    (h2 : ∀ x ∈ b.take py, ∀ y ∈ a.drop px, x ≤ y) :
    mergeCore a b =
      mergeCore (a.take px) (b.take py) ++ mergeCore (a.drop px) (b.drop py) := by
  have hta : (a.take px).Sorted (· ≤ ·) :=
    List.Pairwise.sublist (List.take_sublist _ _) ha
  have htb : (b.take py).Sorted (· ≤ ·) :=
    List.Pairwise.sublist (List.take_sublist _ _) hb
  have hda : (a.drop px).Sorted (· ≤ ·) :=
    List.Pairwise.sublist (List.drop_sublist _ _) ha
  have hdb : (b.drop py).Sorted (· ≤ ·) :=
    List.Pairwise.sublist (List.drop_sublist _ _) hb
  have hsl := mergeCore_sorted _ _ hta htb
  have hsr := mergeCore_sorted _ _ hda hdb
  have hperm : (mergeCore (a.take px) (b.take py) ++
      mergeCore (a.drop px) (b.drop py)).Perm (a ++ b) := by
    refine ((mergeCore_perm _ _).append (mergeCore_perm _ _)).trans ?_
    rw [List.append_assoc]
    refine (List.Perm.append_left _ (List.perm_append_comm_assoc _ _ _)).trans ?_
    rw [← List.append_assoc, List.take_append_drop, List.take_append_drop]
  have hcrossa : ∀ x ∈ a.take px, ∀ y ∈ a.drop px, x ≤ y := by
    have ha2 := ha
    rw [← List.take_append_drop px a, sorted_append_iff] at ha2
    exact ha2.2.2
  have hcrossb : ∀ x ∈ b.take py, ∀ y ∈ b.drop py, x ≤ y := by
    have hb2 := hb
    rw [← List.take_append_drop py b, sorted_append_iff] at hb2
    exact hb2.2.2
  have hsortR : (mergeCore (a.take px) (b.take py) ++
      mergeCore (a.drop px) (b.drop py)).Sorted (· ≤ ·) := by
    rw [sorted_append_iff]
    refine ⟨hsl, hsr, ?_⟩
    intro x hx y hy
    have hx2 : x ∈ a.take px ++ b.take py := (mergeCore_perm _ _).mem_iff.mp hx
    have hy2 : y ∈ a.drop px ++ b.drop py := (mergeCore_perm _ _).mem_iff.mp hy
    rcases List.mem_append.mp hx2 with hxa | hxb <;>
      rcases List.mem_append.mp hy2 with hya | hyb
    · exact hcrossa x hxa y hya
    · exact h1 x hxa y hyb
    · exact h2 x hxb y hya
    · exact hcrossb x hxb y hyb
  exact List.eq_of_perm_of_sorted ((mergeCore_perm a b).trans hperm.symm)
    (mergeCore_sorted a b ha hb) hsortR

theorem take_last_ub (l : List ℚ) (hl : l.Sorted (· ≤ ·)) {k : ℕ}
    (hk1 : 1 ≤ k) (hk : k ≤ l.length) :
    ∀ x ∈ l.take k, x ≤ l.getD (k - 1) 0 := by
  intro x hx
  have hts : (l.take k).Sorted (· ≤ ·) :=
    List.Pairwise.sublist (List.take_sublist _ _) hl
  have hlen : (l.take k).length = k := by rw [List.length_take]; omega
  have h := sorted_le_last _ hts hx
  rw [hlen] at h
  have hb1 : k - 1 < (l.take k).length := by omega
  have hb2 : k - 1 < l.length := by omega
  have heq : (l.take k).getD (k - 1) 0 = l.getD (k - 1) 0 := by
    rw [List.getD_eq_getElem (l.take k) 0 hb1, List.getD_eq_getElem l 0 hb2,
      List.getElem_take]
  rw [heq] at h
  exact h

theorem take_last_mem (l : List ℚ) {k : ℕ} (hk1 : 1 ≤ k) (hk : k ≤ l.length) :
    l.getD (k - 1) 0 ∈ l.take k := by
  have hlen : (l.take k).length = k := by rw [List.length_take]; omega
  have hb1 : k - 1 < (l.take k).length := by omega
  have hb2 : k - 1 < l.length := by omega
  have heq : l.getD (k - 1) 0 = (l.take k).getD (k - 1) 0 := by
    rw [List.getD_eq_getElem (l.take k) 0 hb1, List.getD_eq_getElem l 0 hb2,
      List.getElem_take]
  rw [heq, List.getD_eq_getElem (l.take k) 0 hb1]
  exact List.getElem_mem hb1

theorem drop_head_lb (l : List ℚ) (hl : l.Sorted (· ≤ ·)) {k : ℕ}
    (hk : k < l.length) : ∀ y ∈ l.drop k, l.getD k 0 ≤ y := by
  intro y hy
  have hds : (l.drop k).Sorted (· ≤ ·) :=
    List.Pairwise.sublist (List.drop_sublist _ _) hl
  have h := sorted_head_le _ hds hy
  have hb1 : 0 < (l.drop k).length := by rw [List.length_drop]; omega
  have heq : (l.drop k).getD 0 0 = l.getD k 0 := by
    rw [List.getD_eq_getElem (l.drop k) 0 hb1, List.getD_eq_getElem l 0 hk,
      List.getElem_drop]
    congr 1
  rw [heq] at h
  exact h

theorem drop_head_mem (l : List ℚ) {k : ℕ} (hk : k < l.length) :
    l.getD k 0 ∈ l.drop k := by
  have hb1 : 0 < (l.drop k).length := by rw [List.length_drop]; omega
  have heq : l.getD k 0 = (l.drop k).getD 0 0 := by
    rw [List.getD_eq_getElem (l.drop k) 0 hb1, List.getD_eq_getElem l 0 hk,
      List.getElem_drop]
    congr 1
  rw [heq, List.getD_eq_getElem (l.drop k) 0 hb1]
  exact List.getElem_mem hb1

/-! ## Good partitions of the binary search -/

/-- The quantity `half` as computed at line 76 of `find_median_sorted_arrays` (with `a`
the shorter array after the swap). -/
def halfOf (a b : List ℚ) : ℕ := (a.length + b.length + 1) / 2

/-- The condition `max_left_x <= min_right_y` at partition `px`, over the rationals (the
sentinel comparisons are the first two disjuncts). -/
def goodLeft (a b : List ℚ) (px : ℕ) : Prop :=
  px = 0 ∨ halfOf a b - px = b.length ∨
    a.getD (px - 1) 0 ≤ b.getD (halfOf a b - px) 0

/-- The condition `max_left_y <= min_right_x` at partition `px`. -/
def goodRight (a b : List ℚ) (px : ℕ) : Prop :=
  halfOf a b - px = 0 ∨ px = a.length ∨
    b.getD (halfOf a b - px - 1) 0 ≤ a.getD px 0

instance (a b : List ℚ) (px : ℕ) : Decidable (goodLeft a b px) := by
  unfold goodLeft; infer_instance

instance (a b : List ℚ) (px : ℕ) : Decidable (goodRight a b px) := by
  unfold goodRight; infer_instance

theorem not_goodLeft_mono (a b : List ℚ) (ha : a.Sorted (· ≤ ·))
    (hb : b.Sorted (· ≤ ·)) (hmn : a.length ≤ b.length) {px px' : ℕ}
    (hle : px ≤ px') (hpx' : px' ≤ a.length) (h : ¬ goodLeft a b px) :
    ¬ goodLeft a b px' := by
  unfold goodLeft at h ⊢
  push_neg at h ⊢
  obtain ⟨h0, hn, hlt⟩ := h
  have hhalf : halfOf a b ≤ b.length := by unfold halfOf; omega
  have hpy : halfOf a b - px < b.length := by omega
  refine ⟨by omega, by omega, ?_⟩
  calc b.getD (halfOf a b - px') 0
      ≤ b.getD (halfOf a b - px) 0 := sorted_getD_mono b hb (by omega) hpy
    _ < a.getD (px - 1) 0 := hlt
    _ ≤ a.getD (px' - 1) 0 := sorted_getD_mono a ha (by omega) (by omega)

theorem not_goodRight_mono (a b : List ℚ) (ha : a.Sorted (· ≤ ·))
    (hb : b.Sorted (· ≤ ·)) (hmn : a.length ≤ b.length) {px px' : ℕ}
    (hle : px' ≤ px) (hpx : px ≤ a.length) (h : ¬ goodRight a b px) :
    ¬ goodRight a b px' := by
  unfold goodRight at h ⊢
  push_neg at h ⊢
  obtain ⟨h0, hm, hlt⟩ := h
  have hhalf : halfOf a b ≤ b.length := by unfold halfOf; omega
  refine ⟨by omega, by omega, ?_⟩
  calc a.getD px' 0
      ≤ a.getD px 0 := sorted_getD_mono a ha hle (by omega)
    _ < b.getD (halfOf a b - px - 1) 0 := hlt
    _ ≤ b.getD (halfOf a b - px' - 1) 0 := sorted_getD_mono b hb (by omega) (by omega)

theorem exists_good_partition (a b : List ℚ) (_ha : a.Sorted (· ≤ ·))
    (_hb : b.Sorted (· ≤ ·)) (_hm : 1 ≤ a.length) (_hn : 1 ≤ b.length)
    (_hmn : a.length ≤ b.length) :
    ∃ px, px ≤ a.length ∧ goodLeft a b px ∧ goodRight a b px := by
  have hgl0 : goodLeft a b 0 := Or.inl rfl
  set K := Nat.findGreatest (fun px => goodLeft a b px) a.length with hK
  have hKle : K ≤ a.length := Nat.findGreatest_le a.length
  have hKgl : goodLeft a b K := Nat.findGreatest_spec (Nat.zero_le a.length) hgl0
  refine ⟨K, hKle, hKgl, ?_⟩
  by_contra hng
  unfold goodRight at hng
  push_neg at hng
  obtain ⟨hpy0, hpxm, hlt⟩ := hng
  have hgl2 : goodLeft a b (K + 1) := by
    unfold goodLeft
    right; right
    have e2 : halfOf a b - (K + 1) = halfOf a b - K - 1 := by omega
    have e1 : K + 1 - 1 = K := by omega
    rw [e1, e2]
    exact le_of_lt hlt
  have hle2 : K + 1 ≤ a.length := by omega
  exact Nat.findGreatest_is_greatest (hK ▸ Nat.lt_succ_self K) hle2 hgl2

/-! ## ERat computation lemmas -/

@[simp] theorem ERat.ble_negInf_fin (q : ℚ) : ERat.ble .negInf (.fin q) = true := rfl

@[simp] theorem ERat.ble_negInf_posInf : ERat.ble .negInf .posInf = true := rfl

@[simp] theorem ERat.ble_negInf_negInf : ERat.ble .negInf .negInf = true := rfl

@[simp] theorem ERat.ble_fin_posInf (q : ℚ) : ERat.ble (.fin q) .posInf = true := rfl

@[simp] theorem ERat.ble_fin_fin (u v : ℚ) :
    ERat.ble (.fin u) (.fin v) = decide (u ≤ v) := rfl

@[simp] theorem ERat.ble_fin_negInf (q : ℚ) : ERat.ble (.fin q) .negInf = false := rfl

@[simp] theorem ERat.ble_posInf_fin (q : ℚ) : ERat.ble .posInf (.fin q) = false := rfl

@[simp] theorem ERat.ble_posInf_posInf : ERat.ble .posInf .posInf = true := rfl

@[simp] theorem ERat.ble_posInf_negInf : ERat.ble .posInf .negInf = false := rfl

theorem ERat.blt_eq (a b : ERat) : ERat.blt a b = (a.ble b && !(b.ble a)) := rfl

@[simp] theorem ERat.pymax_negInf_fin (q : ℚ) :
    ERat.pymax .negInf (.fin q) = .fin q := rfl

@[simp] theorem ERat.pymax_fin_negInf (q : ℚ) :
    ERat.pymax (.fin q) .negInf = .fin q := rfl

theorem ERat.pymax_fin_fin (u v : ℚ) :
    ERat.pymax (.fin u) (.fin v) = .fin (if u < v then v else u) := by
  simp only [ERat.pymax, ERat.blt_eq, ERat.ble_fin_fin]
  by_cases h : u < v
  · simp [h, le_of_lt h, not_le.mpr h]
  · simp [h, not_lt.mp h]

@[simp] theorem ERat.pymin_posInf_fin (q : ℚ) :
    ERat.pymin .posInf (.fin q) = .fin q := rfl

@[simp] theorem ERat.pymin_fin_posInf (q : ℚ) :
    ERat.pymin (.fin q) .posInf = .fin q := rfl

theorem ERat.pymin_fin_fin (u v : ℚ) :
    ERat.pymin (.fin u) (.fin v) = .fin (if v < u then v else u) := by
  simp only [ERat.pymin, ERat.blt_eq, ERat.ble_fin_fin]
  by_cases h : v < u
  · simp [h, le_of_lt h, not_le.mpr h]
  · simp [h, not_lt.mp h]

@[simp] theorem ERat.add_fin_fin (u v : ℚ) :
    ERat.add (.fin u) (.fin v) = .fin (u + v) := rfl

@[simp] theorem ERat.half_fin (u : ℚ) : (ERat.fin u).half = .fin (u / 2) := rfl

/-! ## Cross inequalities of a good partition -/

theorem goodLeft_cross (a b : List ℚ) (ha : a.Sorted (· ≤ ·))
    (hb : b.Sorted (· ≤ ·)) (hmn : a.length ≤ b.length) (px : ℕ)
    (hpx : px ≤ a.length) (hgl : goodLeft a b px) :
    ∀ x ∈ a.take px, ∀ y ∈ b.drop (halfOf a b - px), x ≤ y := by
  intro x hx y hy
  have hpx1 : 1 ≤ px := by
    rcases Nat.eq_zero_or_pos px with rfl | h
    · simp at hx
    · exact h
  have hpyn : halfOf a b - px < b.length := by
    by_contra hcon
    push_neg at hcon
    rw [List.drop_eq_nil_of_le (by omega)] at hy
    exact absurd hy (List.not_mem_nil y)
  have hineq : a.getD (px - 1) 0 ≤ b.getD (halfOf a b - px) 0 := by
    rcases hgl with h0 | hn2 | hle
    · omega
    · omega
    · exact hle
  exact le_trans (take_last_ub a ha hpx1 hpx x hx)
    (le_trans hineq (drop_head_lb b hb hpyn y hy))

theorem goodRight_cross (a b : List ℚ) (ha : a.Sorted (· ≤ ·))
    (hb : b.Sorted (· ≤ ·)) (hmn : a.length ≤ b.length) (px : ℕ)
    (hpx : px ≤ a.length) (hgr : goodRight a b px) :
    ∀ x ∈ b.take (halfOf a b - px), ∀ y ∈ a.drop px, x ≤ y := by
  intro x hx y hy
  have hpy1 : 1 ≤ halfOf a b - px := by
    rcases Nat.eq_zero_or_pos (halfOf a b - px) with he | h
    · rw [he] at hx
      simp at hx
    · exact h
  have hpxm : px < a.length := by
    by_contra hcon
    push_neg at hcon
    rw [List.drop_eq_nil_of_le (by omega)] at hy
    exact absurd hy (List.not_mem_nil y)
  have hhalf : halfOf a b ≤ b.length := by unfold halfOf; omega
  have hineq : b.getD (halfOf a b - px - 1) 0 ≤ a.getD px 0 := by
    rcases hgr with h0 | hm2 | hle
    · omega
    · omega
    · exact hle
  exact le_trans (take_last_ub b hb hpy1 (by omega) x hx)
    (le_trans hineq (drop_head_lb a ha hpxm y hy))

/-! ## Median values at a good partition -/

theorem good_partition_values (a b : List ℚ) (ha : a.Sorted (· ≤ ·))
    (hb : b.Sorted (· ≤ ·)) (hm : 1 ≤ a.length) (hn : 1 ≤ b.length)
    (hmn : a.length ≤ b.length) (px : ℕ) (hpx : px ≤ a.length)
    (hgl : goodLeft a b px) (hgr : goodRight a b px) :
    ((if px = 0 then ERat.negInf else ERat.fin (a.getD (px - 1) 0)).pymax
        (if halfOf a b - px = 0 then ERat.negInf
          else ERat.fin (b.getD (halfOf a b - px - 1) 0)) =
      ERat.fin ((mergeCore a b).getD (halfOf a b - 1) 0)) ∧
    ((if px = a.length then ERat.posInf else ERat.fin (a.getD px 0)).pymin
        (if halfOf a b - px = b.length then ERat.posInf
          else ERat.fin (b.getD (halfOf a b - px) 0)) =
      ERat.fin ((mergeCore a b).getD (halfOf a b) 0)) := by
  have hhalfn : halfOf a b ≤ b.length := by unfold halfOf; omega
  have hmhalf : a.length ≤ halfOf a b := by unfold halfOf; omega
  have hhalf1 : 1 ≤ halfOf a b := by unfold halfOf; omega
  have hhalflt : halfOf a b < a.length + b.length := by unfold halfOf; omega
  have hpxhalf : px ≤ halfOf a b := le_trans hpx hmhalf
  have hpyn : halfOf a b - px ≤ b.length := by omega
  have h1 := goodLeft_cross a b ha hb hmn px hpx hgl
  have h2 := goodRight_cross a b ha hb hmn px hpx hgr
  have hsplit := merged_split a b ha hb px (halfOf a b - px) h1 h2
  have hSLperm := mergeCore_perm (a.take px) (b.take (halfOf a b - px))
  have hSRperm := mergeCore_perm (a.drop px) (b.drop (halfOf a b - px))
  have hSLlen : (mergeCore (a.take px) (b.take (halfOf a b - px))).length =
      halfOf a b := by
    have hl := hSLperm.length_eq
    rw [List.length_append, List.length_take, List.length_take] at hl
    omega
  have hSRlen : (mergeCore (a.drop px) (b.drop (halfOf a b - px))).length =
      a.length + b.length - halfOf a b := by
    have hl := hSRperm.length_eq
    rw [List.length_append, List.length_drop, List.length_drop] at hl
    omega
  have hSLsorted : (mergeCore (a.take px) (b.take (halfOf a b - px))).Sorted (· ≤ ·) :=
    mergeCore_sorted _ _ (List.Pairwise.sublist (List.take_sublist _ _) ha)
      (List.Pairwise.sublist (List.take_sublist _ _) hb)
  have hSRsorted : (mergeCore (a.drop px) (b.drop (halfOf a b - px))).Sorted (· ≤ ·) :=
    mergeCore_sorted _ _ (List.Pairwise.sublist (List.drop_sublist _ _) ha)
      (List.Pairwise.sublist (List.drop_sublist _ _) hb)
  have hMleft : (mergeCore a b).getD (halfOf a b - 1) 0 =
      (mergeCore (a.take px) (b.take (halfOf a b - px))).getD (halfOf a b - 1) 0 := by
    rw [hsplit]
    exact List.getD_append _ _ _ _ (by omega)
  have hMright : (mergeCore a b).getD (halfOf a b) 0 =
      (mergeCore (a.drop px) (b.drop (halfOf a b - px))).getD 0 0 := by
    rw [hsplit, List.getD_append_right _ _ _ _ (by omega)]
    congr 1
    omega
  have keyL : ∀ q : ℚ, q ∈ a.take px ++ b.take (halfOf a b - px) →
      (∀ x ∈ a.take px ++ b.take (halfOf a b - px), x ≤ q) →
      (mergeCore (a.take px) (b.take (halfOf a b - px))).getD (halfOf a b - 1) 0
        = q := by
    intro q hqmem hqub
    have h3 := sorted_last_eq_of_ub _ hSLsorted (hSLperm.mem_iff.mpr hqmem)
      (fun x hx => hqub x (hSLperm.mem_iff.mp hx))
    rw [hSLlen] at h3
    exact h3
  have keyR : ∀ q : ℚ, q ∈ a.drop px ++ b.drop (halfOf a b - px) →
      (∀ y ∈ a.drop px ++ b.drop (halfOf a b - px), q ≤ y) →
      (mergeCore (a.drop px) (b.drop (halfOf a b - px))).getD 0 0 = q :=
    fun q hqmem hqlb =>
      sorted_head_eq_of_lb _ hSRsorted (hSRperm.mem_iff.mpr hqmem)
        (fun x hx => hqlb x (hSRperm.mem_iff.mp hx))
  constructor
  · rw [hMleft]
    rcases Nat.eq_zero_or_pos px with hpx0 | hpx1
    · have hpy1 : 1 ≤ halfOf a b - px := by omega
      rw [if_pos hpx0, if_neg (by omega), ERat.pymax_negInf_fin]
      congr 1
      symm
      apply keyL
      · exact List.mem_append_right _ (take_last_mem b hpy1 hpyn)
      · intro x hx
        rcases List.mem_append.mp hx with hxa | hxb
        · rw [hpx0] at hxa
          simp at hxa
        · exact take_last_ub b hb hpy1 hpyn x hxb
    · rcases Nat.eq_zero_or_pos (halfOf a b - px) with hpy0 | hpy1
      · rw [if_neg (by omega), if_pos hpy0, ERat.pymax_fin_negInf]
        congr 1
        symm
        apply keyL
        · exact List.mem_append_left _ (take_last_mem a hpx1 hpx)
        · intro x hx
          rcases List.mem_append.mp hx with hxa | hxb
          · exact take_last_ub a ha hpx1 hpx x hxa
          · rw [hpy0] at hxb
            simp at hxb
      · rw [if_neg (by omega), if_neg (by omega), ERat.pymax_fin_fin]
        congr 1
        symm
        apply keyL
        · by_cases hc : a.getD (px - 1) 0 < b.getD (halfOf a b - px - 1) 0
          · rw [if_pos hc]
            exact List.mem_append_right _ (take_last_mem b hpy1 hpyn)
          · rw [if_neg hc]
            exact List.mem_append_left _ (take_last_mem a hpx1 hpx)
        · intro x hx
          have hq1 : a.getD (px - 1) 0 ≤
              (if a.getD (px - 1) 0 < b.getD (halfOf a b - px - 1) 0
                then b.getD (halfOf a b - px - 1) 0 else a.getD (px - 1) 0) := by
            split
            · exact le_of_lt (by assumption)
            · exact le_refl _
          have hq2 : b.getD (halfOf a b - px - 1) 0 ≤
              (if a.getD (px - 1) 0 < b.getD (halfOf a b - px - 1) 0
                then b.getD (halfOf a b - px - 1) 0 else a.getD (px - 1) 0) := by
            split
            · exact le_refl _
            · exact not_lt.mp (by assumption)
          rcases List.mem_append.mp hx with hxa | hxb
          · exact le_trans (take_last_ub a ha hpx1 hpx x hxa) hq1
          · exact le_trans (take_last_ub b hb hpy1 hpyn x hxb) hq2
  · rw [hMright]
    by_cases hpxm : px = a.length
    · have hpyn2 : halfOf a b - px < b.length := by omega
      rw [if_pos hpxm, if_neg (by omega), ERat.pymin_posInf_fin]
      congr 1
      symm
      apply keyR
      · exact List.mem_append_right _ (drop_head_mem b hpyn2)
      · intro y hy
        rcases List.mem_append.mp hy with hya | hyb
        · rw [hpxm, List.drop_length] at hya
          simp at hya
        · exact drop_head_lb b hb hpyn2 y hyb
    · by_cases hpyn2 : halfOf a b - px = b.length
      · rw [if_neg hpxm, if_pos hpyn2, ERat.pymin_fin_posInf]
        congr 1
        symm
        apply keyR
        · exact List.mem_append_left _ (drop_head_mem a (by omega))
        · intro y hy
          rcases List.mem_append.mp hy with hya | hyb
          · exact drop_head_lb a ha (by omega) y hya
          · rw [hpyn2, List.drop_length] at hyb
            simp at hyb
      · rw [if_neg hpxm, if_neg hpyn2, ERat.pymin_fin_fin]
        congr 1
        symm
        apply keyR
        · by_cases hc : b.getD (halfOf a b - px) 0 < a.getD px 0
          · rw [if_pos hc]
            exact List.mem_append_right _ (drop_head_mem b (by omega))
          · rw [if_neg hc]
            exact List.mem_append_left _ (drop_head_mem a (by omega))
        · intro y hy
          have hq1 : (if b.getD (halfOf a b - px) 0 < a.getD px 0
                then b.getD (halfOf a b - px) 0 else a.getD px 0) ≤ a.getD px 0 := by
            split
            · exact le_of_lt (by assumption)
            · exact le_refl _
          have hq2 : (if b.getD (halfOf a b - px) 0 < a.getD px 0
                then b.getD (halfOf a b - px) 0 else a.getD px 0) ≤
              b.getD (halfOf a b - px) 0 := by
            split
            · exact le_refl _
            · exact not_lt.mp (by assumption)
          rcases List.mem_append.mp hy with hya | hyb
          · exact le_trans hq1 (drop_head_lb a ha (by omega) y hya)
          · exact le_trans hq2 (drop_head_lb b hb (by omega) y hyb)

/-! ## Bridging the loop conditions to good partitions -/

theorem ERat.ite_negInf_fin_ne_nan (c : Prop) [Decidable c] (q : ℚ) :
    (if c then ERat.negInf else ERat.fin q) ≠ ERat.nan := by
  split <;> simp

theorem ERat.ite_posInf_fin_ne_nan (c : Prop) [Decidable c] (q : ℚ) :
    (if c then ERat.posInf else ERat.fin q) ≠ ERat.nan := by
  split <;> simp

theorem ERat.blt_eq_not_ble (x y : ERat) (hx : x ≠ .nan) (hy : y ≠ .nan) :
    ERat.blt y x = !(ERat.ble x y) := by
  cases x with
  | nan => exact absurd rfl hx
  | negInf => cases y <;> simp_all [ERat.blt_eq, ERat.ble]
  | posInf => cases y <;> simp_all [ERat.blt_eq, ERat.ble]
  | fin u =>
    cases y with
    | nan => exact absurd rfl hy
    | negInf => simp [ERat.blt_eq, ERat.ble]
    | posInf => simp [ERat.blt_eq, ERat.ble]
    | fin v =>
      simp only [ERat.blt_eq, ERat.ble_fin_fin]
      rcases le_total u v with h | h
      · simp [h]
      · simp [h]

theorem cond1_iff (a b : List ℚ) (pxz : ℤ) (pxn : ℕ) (hpxzn : (pxn : ℤ) = pxz)
    (hpxh : pxn ≤ halfOf a b) (hhn : halfOf a b ≤ b.length) :
    (((if pxz = 0 then ERat.negInf else ERat.fin (a.getD (pxz - 1).toNat 0)).ble
        (if (halfOf a b : ℤ) - pxz = (b.length : ℤ) then ERat.posInf
          else ERat.fin (b.getD ((halfOf a b : ℤ) - pxz).toNat 0))) = true) ↔
      goodLeft a b pxn := by
  have e1 : (pxz - 1).toNat = pxn - 1 := by omega
  have e2 : ((halfOf a b : ℤ) - pxz).toNat = halfOf a b - pxn := by omega
  by_cases h0 : pxn = 0
  · rw [if_pos (by omega : pxz = 0)]
    by_cases h2 : (halfOf a b : ℤ) - pxz = (b.length : ℤ)
    · rw [if_pos h2]
      simp [goodLeft, h0]
    · rw [if_neg h2]
      simp [goodLeft, h0]
  · rw [if_neg (by omega : ¬ pxz = 0)]
    by_cases h2 : (halfOf a b : ℤ) - pxz = (b.length : ℤ)
    · rw [if_pos h2]
      simp only [ERat.ble_fin_posInf, true_iff]
      exact Or.inr (Or.inl (by omega))
    · rw [if_neg h2, ERat.ble_fin_fin, e1, e2, decide_eq_true_iff]
      constructor
      · exact fun hle => Or.inr (Or.inr hle)
      · rintro (hh | hh | hh)
        · omega
        · omega
        · exact hh

theorem cond2_iff (a b : List ℚ) (pxz : ℤ) (pxn : ℕ) (hpxzn : (pxn : ℤ) = pxz)
    (hpxh : pxn ≤ halfOf a b) (hhn : halfOf a b ≤ b.length) :
    (((if (halfOf a b : ℤ) - pxz = 0 then ERat.negInf
        else ERat.fin (b.getD ((halfOf a b : ℤ) - pxz - 1).toNat 0)).ble
        (if pxz = (a.length : ℤ) then ERat.posInf
          else ERat.fin (a.getD pxz.toNat 0))) = true) ↔
      goodRight a b pxn := by
  have e1 : ((halfOf a b : ℤ) - pxz - 1).toNat = halfOf a b - pxn - 1 := by omega
  have e2 : pxz.toNat = pxn := by omega
  by_cases h0 : halfOf a b - pxn = 0
  · rw [if_pos (by omega : (halfOf a b : ℤ) - pxz = 0)]
    by_cases h2 : pxz = (a.length : ℤ)
    · rw [if_pos h2]
      simp [goodRight, h0]
    · rw [if_neg h2]
      simp [goodRight, h0]
  · rw [if_neg (by omega : ¬ (halfOf a b : ℤ) - pxz = 0)]
    by_cases h2 : pxz = (a.length : ℤ)
    · rw [if_pos h2]
      simp only [ERat.ble_fin_posInf, true_iff]
      exact Or.inr (Or.inl (by omega))
    · rw [if_neg h2, ERat.ble_fin_fin, e1, e2, decide_eq_true_iff]
      constructor
      · exact fun hle => Or.inr (Or.inr hle)
      · rintro (hh | hh | hh)
        · omega
        · omega
        · exact hh

/-! ## Correctness of the binary partition search -/

theorem mergeCore_length (a b : List ℚ) :
    (mergeCore a b).length = a.length + b.length := by
  have := (mergeCore_perm a b).length_eq
  rwa [List.length_append] at this

theorem findMedianSingle_merge_odd (a b : List ℚ)
    (hodd : (a.length + b.length) % 2 = 1) :
    findMedianSingle (mergeCore a b) = (mergeCore a b).getD (halfOf a b - 1) 0 := by
  simp only [findMedianSingle, mergeCore_length, hodd, if_pos]
  congr 1
  unfold halfOf
  omega

theorem findMedianSingle_merge_even (a b : List ℚ)
    (heven : ¬ (a.length + b.length) % 2 = 1) :
    findMedianSingle (mergeCore a b) =
      ((mergeCore a b).getD (halfOf a b - 1) 0 +
        (mergeCore a b).getD (halfOf a b) 0) / 2 := by
  simp only [findMedianSingle, mergeCore_length, heven, if_false]
  have e1 : (a.length + b.length) / 2 - 1 = halfOf a b - 1 := by unfold halfOf; omega
  have e2 : (a.length + b.length) / 2 = halfOf a b := by unfold halfOf; omega
  rw [e1, e2]

theorem medianLoop_ok (a b : List ℚ) (ha : a.Sorted (· ≤ ·)) (hb : b.Sorted (· ≤ ·))
    (hm : 1 ≤ a.length) (hn : 1 ≤ b.length) (hmn : a.length ≤ b.length) :
    ∀ (fuel : ℕ) (left right : ℤ), 0 ≤ left → right ≤ (a.length : ℤ) →
      (right + 1 - left).toNat ≤ fuel →
      (∃ px : ℕ, left ≤ (px : ℤ) ∧ (px : ℤ) ≤ right ∧
        goodLeft a b px ∧ goodRight a b px) →
      medianLoop a b a.length b.length (a.length + b.length) (halfOf a b)
          fuel left right =
        .ok (.fin (findMedianSingle (mergeCore a b))) := by
  have hhn : halfOf a b ≤ b.length := by unfold halfOf; omega
  have hmhalf : a.length ≤ halfOf a b := by unfold halfOf; omega
  intro fuel
  induction fuel with
  | zero =>
    intro left right hl hr hfuel hex
    obtain ⟨px, hpl, hpr, -, -⟩ := hex
    exfalso
    omega
  | succ f ih =>
    intro left right hl hr hfuel hex
    obtain ⟨pxg, hpl, hpr, hglg, hgrg⟩ := hex
    have hpxgm : pxg ≤ a.length := by omega
    have hlr : left ≤ right := le_trans hpl hpr
    rw [medianLoop, if_pos hlr]
    dsimp only
    set pz := (left + right) / 2 with hpzdef
    have hpxz_lb : left ≤ pz := by
      rw [hpzdef, Int.le_ediv_iff_mul_le (by norm_num)]
      omega
    have hpxz_ub : pz ≤ right := by
      rw [hpzdef]
      have h2 : left + right ≤ 2 * right := by omega
      have h3 := Int.ediv_le_ediv (by norm_num : (0 : ℤ) < 2) h2
      rwa [Int.mul_ediv_cancel_left right (by norm_num : (2 : ℤ) ≠ 0)] at h3
    have hpxz0 : 0 ≤ pz := le_trans hl hpxz_lb
    set pn := pz.toNat with hpndef
    have hpxzn : (pn : ℤ) = pz := Int.toNat_of_nonneg hpxz0
    have hpxnm : pn ≤ a.length := by omega
    have hpxh : pn ≤ halfOf a b := le_trans hpxnm hmhalf
    set MLX := (if pz = 0 then ERat.negInf
      else ERat.fin (a.getD (pz - 1).toNat 0)) with hMLX
    set MRX := (if pz = (a.length : ℤ) then ERat.posInf
      else ERat.fin (a.getD pn 0)) with hMRX
    set MLY := (if ((halfOf a b : ℤ)) - pz = 0 then ERat.negInf
      else ERat.fin (b.getD ((halfOf a b : ℤ) - pz - 1).toNat 0)) with hMLY
    set MRY := (if ((halfOf a b : ℤ)) - pz = (b.length : ℤ) then ERat.posInf
      else ERat.fin (b.getD ((halfOf a b : ℤ) - pz).toNat 0)) with hMRY
    have hC1 := cond1_iff a b pz pn hpxzn hpxh hhn
    have hC2 := cond2_iff a b pz pn hpxzn hpxh hhn
    rw [← hMLX, ← hMRY] at hC1
    rw [← hpndef, ← hMLY, ← hMRX] at hC2
    by_cases hGL : goodLeft a b pn
    · by_cases hGR : goodRight a b pn
      · rw [if_pos (by rw [Bool.and_eq_true]; exact ⟨hC1.mpr hGL, hC2.mpr hGR⟩)]
        have hvals := good_partition_values a b ha hb hm hn hmn pn hpxnm hGL hGR
        have eML : MLX = (if pn = 0 then ERat.negInf
            else ERat.fin (a.getD (pn - 1) 0)) := by
          rw [hMLX]
          by_cases h0 : pn = 0
          · rw [if_pos (by omega), if_pos h0]
          · rw [if_neg (by omega), if_neg h0]
            have e1 : (pz - 1).toNat = pn - 1 := by omega
            rw [e1]
        have eMLy : MLY = (if halfOf a b - pn = 0 then ERat.negInf
            else ERat.fin (b.getD (halfOf a b - pn - 1) 0)) := by
          rw [hMLY]
          by_cases h0 : halfOf a b - pn = 0
          · rw [if_pos (by omega), if_pos h0]
          · rw [if_neg (by omega), if_neg h0]
            have e1 : ((halfOf a b : ℤ) - pz - 1).toNat = halfOf a b - pn - 1 := by
              omega
            rw [e1]
        have eMRx : MRX = (if pn = a.length then ERat.posInf
            else ERat.fin (a.getD pn 0)) := by
          rw [hMRX]
          by_cases h0 : pn = a.length
          · rw [if_pos (by omega), if_pos h0]
          · rw [if_neg (by omega), if_neg h0]
        have eMRy : MRY = (if halfOf a b - pn = b.length then ERat.posInf
            else ERat.fin (b.getD (halfOf a b - pn) 0)) := by
          rw [hMRY]
          by_cases h0 : halfOf a b - pn = b.length
          · rw [if_pos (by omega), if_pos h0]
          · rw [if_neg (by omega), if_neg h0]
            have e1 : ((halfOf a b : ℤ) - pz).toNat = halfOf a b - pn := by omega
            rw [e1]
        rw [eML, eMLy, eMRx, eMRy]
        by_cases hodd : (a.length + b.length) % 2 = 1
        · rw [if_pos hodd, hvals.1, findMedianSingle_merge_odd a b hodd]
        · rw [if_neg hodd, hvals.1, hvals.2, ERat.add_fin_fin, ERat.half_fin,
            findMedianSingle_merge_even a b hodd]
      · rw [if_neg (by
          rw [Bool.and_eq_true]
          rintro ⟨-, h2⟩
          exact hGR (hC2.mp h2))]
        have hne1 : MLX ≠ ERat.nan := by
          rw [hMLX]
          exact ERat.ite_negInf_fin_ne_nan _ _
        have hne2 : MRY ≠ ERat.nan := by
          rw [hMRY]
          exact ERat.ite_posInf_fin_ne_nan _ _
        have hblt : MRY.blt MLX = !(MLX.ble MRY) :=
          ERat.blt_eq_not_ble MLX MRY hne1 hne2
        have hc1t : MLX.ble MRY = true := hC1.mpr hGL
        rw [if_neg (by rw [hblt, hc1t]; exact Bool.false_ne_true)]
        apply ih
        · omega
        · exact hr
        · omega
        · have hlt : pn < pxg := by
            by_contra hcon
            push_neg at hcon
            exact (not_goodRight_mono a b ha hb hmn hcon hpxnm hGR) hgrg
          exact ⟨pxg, by omega, hpr, hglg, hgrg⟩
    · rw [if_neg (by
        rw [Bool.and_eq_true]
        rintro ⟨h1, -⟩
        exact hGL (hC1.mp h1))]
      have hne1 : MLX ≠ ERat.nan := by
        rw [hMLX]
        exact ERat.ite_negInf_fin_ne_nan _ _
      have hne2 : MRY ≠ ERat.nan := by
        rw [hMRY]
        exact ERat.ite_posInf_fin_ne_nan _ _
      have hblt : MRY.blt MLX = !(MLX.ble MRY) :=
        ERat.blt_eq_not_ble MLX MRY hne1 hne2
      have hc1f : MLX.ble MRY = false := by
        rcases Bool.eq_false_or_eq_true (MLX.ble MRY) with h | h
        · exact absurd (hC1.mp h) hGL
        · exact h
      rw [if_pos (by rw [hblt, hc1f]; rfl)]
      apply ih
      · exact hl
      · omega
      · omega
      · have hlt : pxg < pn := by
          by_contra hcon
          push_neg at hcon
          exact (not_goodLeft_mono a b ha hb hmn hcon hpxgm hGL) hglg
        exact ⟨pxg, hpl, by omega, hglg, hgrg⟩

theorem mergeCore_nil (xs : List ℚ) : mergeCore xs [] = xs := by
  cases xs <;> simp

theorem refMedian_comm (a b : List ℚ) (ha : a.Sorted (· ≤ ·))
    (hb : b.Sorted (· ≤ ·)) : refMedian a b = refMedian b a := by
  unfold refMedian
  congr 1
  exact List.eq_of_perm_of_sorted
    ((mergeCore_perm a b).trans
      (List.perm_append_comm.trans (mergeCore_perm b a).symm))
    (mergeCore_sorted a b ha hb) (mergeCore_sorted b a hb ha)

theorem findMedianCore_eq (a b : List ℚ) (ha : a.Sorted (· ≤ ·))
    (hb : b.Sorted (· ≤ ·)) (hm : a ≠ []) (hn : b ≠ []) :
    findMedianCore a b = .ok (.fin (refMedian a b)) := by
  have hm1 : 1 ≤ a.length := List.length_pos.mpr hm
  have hn1 : 1 ≤ b.length := List.length_pos.mpr hn
  unfold findMedianCore
  dsimp only
  by_cases hswap : a.length > b.length
  · rw [if_pos hswap]
    dsimp only
    have hmn : b.length ≤ a.length := by omega
    show medianLoop b a b.length a.length (b.length + a.length) (halfOf b a)
        (b.length + 2) 0 (b.length : ℤ) = _
    rw [medianLoop_ok b a hb ha hn1 hm1 hmn (b.length + 2) 0 (b.length : ℤ)
      (by omega) (by omega) (by omega) ?hex]
    case hex =>
      obtain ⟨px, hle, hgl, hgr⟩ := exists_good_partition b a hb ha hn1 hm1 hmn
      exact ⟨px, by omega, by omega, hgl, hgr⟩
    rw [refMedian_comm a b ha hb]
    rfl
  · rw [if_neg hswap]
    dsimp only
    have hmn : a.length ≤ b.length := by omega
    show medianLoop a b a.length b.length (a.length + b.length) (halfOf a b)
        (a.length + 2) 0 (a.length : ℤ) = _
    rw [medianLoop_ok a b ha hb hm1 hn1 hmn (a.length + 2) 0 (a.length : ℤ)
      (by omega) (by omega) (by omega) ?hex2]
    case hex2 =>
      obtain ⟨px, hle, hgl, hgr⟩ := exists_good_partition a b ha hb hm1 hn1 hmn
      exact ⟨px, by omega, by omega, hgl, hgr⟩
    rfl

/-! ## Validation lemmas -/

theorem firstInvalidIdx_map_num (A : List ℚ) :
    firstInvalidIdx (A.map PyObj.num) = none := by
  rw [firstInvalidIdx, List.findIdx?_eq_none_iff]
  intro x hx
  obtain ⟨q, -, rfl⟩ := List.mem_map.mp hx
  rfl

theorem map_toRat_map_num (A : List ℚ) :
    (A.map PyObj.num).map PyObj.toRat = A := by
  simp [List.map_map, Function.comp_def, PyObj.toRat]

theorem getD_map_num (A : List ℚ) (i : ℕ) (h : i < A.length) :
    (A.map PyObj.num).getD i PyObj.nonNum = PyObj.num (A.getD i 0) := by
  rw [List.getD_eq_getElem (A.map PyObj.num) PyObj.nonNum
    (by rw [List.length_map]; omega), List.getElem_map,
    List.getD_eq_getElem A 0 h]

theorem firstUnsortedIdx_map_num_eq_none (A : List ℚ) :
    firstUnsortedIdx (A.map PyObj.num) = none ↔ A.Sorted (· ≤ ·) := by
  rw [firstUnsortedIdx, List.find?_eq_none]
  constructor
  · intro h
    rw [List.Sorted, ← List.chain'_iff_pairwise, List.chain'_iff_get]
    intro i hi
    by_contra hcon
    push_neg at hcon
    have hi2 : i + 1 < A.length := by omega
    have hmem : (i + 1) ∈ List.range' 1 ((A.map PyObj.num).length - 1) := by
      rw [List.mem_range'_1, List.length_map]
      omega
    have h2 := h (i + 1) hmem
    rw [getD_map_num A (i + 1) hi2] at h2
    have e1 : i + 1 - 1 = i := by omega
    rw [e1, getD_map_num A i (by omega)] at h2
    apply h2
    show PyObj.pyLt _ _ = true
    rw [PyObj.pyLt]
    rw [decide_eq_true_iff]
    rw [List.getD_eq_getElem A 0 hi2, List.getD_eq_getElem A 0 (by omega)]
    simpa using hcon
  · intro hs i hi
    rw [List.mem_range'_1, List.length_map] at hi
    have hi2 : i < A.length := by omega
    rw [getD_map_num A i hi2, getD_map_num A (i - 1) (by omega)]
    show ¬ PyObj.pyLt _ _ = true
    rw [PyObj.pyLt, decide_eq_true_iff, not_lt]
    exact sorted_getD_mono A hs (by omega) hi2

theorem find_median_map_num (A B : List ℚ) (hA : A.Sorted (· ≤ ·))
    (hB : B.Sorted (· ≤ ·)) :
    find_median_sorted_arrays (A.map PyObj.num) (B.map PyObj.num) =
      if A.length = 0 ∧ B.length = 0 then .error .bothEmpty
      else if A.length = 0 then .ok (.fin (findMedianSingle B))
      else if B.length = 0 then .ok (.fin (findMedianSingle A))
      else findMedianCore A B := by
  unfold find_median_sorted_arrays
  rw [firstInvalidIdx_map_num A, firstInvalidIdx_map_num B,
    (firstUnsortedIdx_map_num_eq_none A).mpr hA,
    (firstUnsortedIdx_map_num_eq_none B).mpr hB]
  simp only [List.length_map, map_toRat_map_num]

theorem find_median_map_num_eq (A B : List ℚ) (hA : A.Sorted (· ≤ ·))
    (hB : B.Sorted (· ≤ ·)) (hne : A ≠ [] ∨ B ≠ []) :
    find_median_sorted_arrays (A.map PyObj.num) (B.map PyObj.num) =
      .ok (.fin (refMedian A B)) := by
  rw [find_median_map_num A B hA hB]
  by_cases hA0 : A.length = 0
  · have hA2 : A = [] := List.eq_nil_of_length_eq_zero hA0
    have hB2 : B ≠ [] := by
      rcases hne with h | h
      · exact absurd hA2 h
      · exact h
    rw [if_neg (by
      rintro ⟨-, hb0⟩
      exact hB2 (List.eq_nil_of_length_eq_zero hb0)), if_pos hA0, hA2]
    unfold refMedian
    rw [mergeCore_nil_left]
  · by_cases hB0 : B.length = 0
    · have hB2 : B = [] := List.eq_nil_of_length_eq_zero hB0
      rw [if_neg (by rintro ⟨ha0, -⟩; exact hA0 ha0), if_neg hA0, if_pos hB0, hB2]
      unfold refMedian
      rw [mergeCore_nil]
    · rw [if_neg (by rintro ⟨ha0, -⟩; exact hA0 ha0), if_neg hA0, if_neg hB0]
      exact findMedianCore_eq A B hA hB
        (fun h => hA0 (by rw [h]; rfl)) (fun h => hB0 (by rw [h]; rfl))

/-! ## Median claims -/

/-- C1: on every pair of valid inputs (sorted rational sequences, not both
empty), `find_median_sorted_arrays` returns exactly the reference median
obtained by merging the two arrays and taking the middle element (odd
total length) or the average of the two middle elements (even total
length), as a (finite) floating-point value. -/
theorem claim_C1 (nums1 nums2 : List ℚ) (h1 : nums1.Sorted (· ≤ ·))
    (h2 : nums2.Sorted (· ≤ ·)) (hne : nums1 ≠ [] ∨ nums2 ≠ []) :
    find_median_sorted_arrays (nums1.map PyObj.num) (nums2.map PyObj.num) =
      .ok (.fin (refMedian nums1 nums2)) :=
  find_median_map_num_eq nums1 nums2 h1 h2 hne

/-- C1 witness at `[1, 3]` and `[2]`: the hypotheses hold and the returned
median is `2`. -/
theorem claim_C1_witness :
    find_median_sorted_arrays [PyObj.num 1, PyObj.num 3] [PyObj.num 2] =
      .ok (.fin 2) := by
  rw [show ([PyObj.num 1, PyObj.num 3] : List PyObj) =
    ([1, 3] : List ℚ).map PyObj.num from rfl,
    show ([PyObj.num 2] : List PyObj) = ([2] : List ℚ).map PyObj.num from rfl,
    claim_C1 [1, 3] [2] (by decide) (by decide) (by decide)]
  decide

/-- C5: on every pair of valid inputs the binary partition search finds a
correct partition and returns a median; in particular the final
`searchFailed` error branch (exhausted search window) is unreachable. -/
theorem claim_C5 (nums1 nums2 : List ℚ) (h1 : nums1.Sorted (· ≤ ·))
    (h2 : nums2.Sorted (· ≤ ·)) (hne : ¬(nums1 = [] ∧ nums2 = [])) :
    (∃ r : ERat, find_median_sorted_arrays (nums1.map PyObj.num)
        (nums2.map PyObj.num) = .ok r) ∧
      find_median_sorted_arrays (nums1.map PyObj.num) (nums2.map PyObj.num) ≠
        .error .searchFailed := by
  have hne2 : nums1 ≠ [] ∨ nums2 ≠ [] := by
    by_cases h : nums1 = []
    · exact Or.inr (fun hb => hne ⟨h, hb⟩)
    · exact Or.inl h
  have h := find_median_map_num_eq nums1 nums2 h1 h2 hne2
  rw [h]
  exact ⟨⟨_, rfl⟩, by simp⟩

/-- C5 witness at `[1, 3]` and `[2]`. -/
theorem claim_C5_witness :
    (∃ r : ERat, find_median_sorted_arrays (([1, 3] : List ℚ).map PyObj.num)
        (([2] : List ℚ).map PyObj.num) = .ok r) ∧
      find_median_sorted_arrays (([1, 3] : List ℚ).map PyObj.num)
          (([2] : List ℚ).map PyObj.num) ≠ .error .searchFailed :=
  claim_C5 [1, 3] [2] (by decide) (by decide) (by decide)

/-- C7: swapping the two argument sequences never changes the result on
valid inputs (sorted, not both empty). -/
theorem claim_C7 (nums1 nums2 : List ℚ) (h1 : nums1.Sorted (· ≤ ·))
    (h2 : nums2.Sorted (· ≤ ·)) (hne : ¬(nums1 = [] ∧ nums2 = [])) :
    find_median_sorted_arrays (nums1.map PyObj.num) (nums2.map PyObj.num) =
      find_median_sorted_arrays (nums2.map PyObj.num) (nums1.map PyObj.num) := by
  have hne2 : nums1 ≠ [] ∨ nums2 ≠ [] := by
    by_cases h : nums1 = []
    · exact Or.inr (fun hb => hne ⟨h, hb⟩)
    · exact Or.inl h
  rw [find_median_map_num_eq nums1 nums2 h1 h2 hne2,
    find_median_map_num_eq nums2 nums1 h2 h1 hne2.symm,
    refMedian_comm nums1 nums2 h1 h2]

/-- C7 witness at `[1, 3]` and `[2]`. -/
theorem claim_C7_witness :
    find_median_sorted_arrays (([1, 3] : List ℚ).map PyObj.num)
        (([2] : List ℚ).map PyObj.num) =
      find_median_sorted_arrays (([2] : List ℚ).map PyObj.num)
        (([1, 3] : List ℚ).map PyObj.num) :=
  claim_C7 [1, 3] [2] (by decide) (by decide) (by decide)

/-- C4: `find_median_sorted_arrays` raises `ArrayOperationError` — and does
not return a value — when any element of either input fails the numeric /
non-NaN check, when an input is not sorted non-descending, or when both
inputs are empty; validation is eager (the error for the first invalid
element of `nums1` is raised regardless of everything else), never
silently correcting the input. -/
theorem claim_C4 :
    (∀ A B : List PyObj,
      ((∃ x ∈ A, x.isValidNum = false) ∨ (∃ x ∈ B, x.isValidNum = false)) →
      ∃ e, find_median_sorted_arrays A B = .error e) ∧
    (∀ A B : List ℚ, (¬ A.Sorted (· ≤ ·) ∨ ¬ B.Sorted (· ≤ ·)) →
      ∃ e, find_median_sorted_arrays (A.map PyObj.num) (B.map PyObj.num) =
        .error e) ∧
    (find_median_sorted_arrays [] [] = .error .bothEmpty) ∧
    (∀ (A B : List PyObj) (i : ℕ), firstInvalidIdx A = some i →
      find_median_sorted_arrays A B = .error (.invalidValue "nums1" i)) := by
  have hfirst : ∀ (A B : List PyObj) (i : ℕ), firstInvalidIdx A = some i →
      find_median_sorted_arrays A B = .error (.invalidValue "nums1" i) := by
    intro A B i hi
    unfold find_median_sorted_arrays
    rw [hi]
  refine ⟨?_, ?_, rfl, hfirst⟩
  · intro A B h
    rcases h with ⟨x, hx, hbad⟩ | ⟨x, hx, hbad⟩
    · have hne : firstInvalidIdx A ≠ none := by
        rw [firstInvalidIdx, Ne, List.findIdx?_eq_none_iff]
        push_neg
        exact ⟨x, hx, by simp [hbad]⟩
      obtain ⟨i, hi⟩ := Option.ne_none_iff_exists'.mp hne
      exact ⟨_, hfirst A B i hi⟩
    · cases hA : firstInvalidIdx A with
      | some i => exact ⟨_, hfirst A B i hA⟩
      | none =>
        have hne : firstInvalidIdx B ≠ none := by
          rw [firstInvalidIdx, Ne, List.findIdx?_eq_none_iff]
          push_neg
          exact ⟨x, hx, by simp [hbad]⟩
        obtain ⟨i, hi⟩ := Option.ne_none_iff_exists'.mp hne
        refine ⟨.invalidValue "nums2" i, ?_⟩
        unfold find_median_sorted_arrays
        rw [hA, hi]
  · intro A B h
    have hsorted : ∀ C : List ℚ, ¬ C.Sorted (· ≤ ·) →
        ∃ i, firstUnsortedIdx (C.map PyObj.num) = some i := by
      intro C hC
      exact Option.ne_none_iff_exists'.mp
        (fun hnone => hC ((firstUnsortedIdx_map_num_eq_none C).mp hnone))
    rcases h with h | h
    · obtain ⟨i, hi⟩ := hsorted A h
      refine ⟨.notSorted "nums1" i, ?_⟩
      unfold find_median_sorted_arrays
      rw [firstInvalidIdx_map_num, firstInvalidIdx_map_num, hi]
    · cases hA : firstUnsortedIdx (A.map PyObj.num) with
      | some i =>
        refine ⟨.notSorted "nums1" i, ?_⟩
        unfold find_median_sorted_arrays
        rw [firstInvalidIdx_map_num, firstInvalidIdx_map_num, hA]
      | none =>
        obtain ⟨i, hi⟩ := hsorted B h
        refine ⟨.notSorted "nums2" i, ?_⟩
        unfold find_median_sorted_arrays
        rw [firstInvalidIdx_map_num, firstInvalidIdx_map_num, hA, hi]

/-- C4 witness: a NaN element in `nums1` yields the corresponding error. -/
theorem claim_C4_witness :
    find_median_sorted_arrays [PyObj.nan] [] =
      .error (.invalidValue "nums1" 0) :=
  claim_C4.2.2.2 [PyObj.nan] [] 0 (by decide)
